import Mathlib

/-!
Shallow embedding of the rag-engine entity-resolution and graph-persistence
core (services/lightrag), together with proofs of the frozen claims.

Sections:
1. Fuzzy string similarity (rapidfuzz `fuzz.ratio` over lowercased names).
2. Entity store and `EntityDeduplicator.find_or_create_entity`
   (app/services/entity_deduplication.py, app/db/neo4j_entity_store.py).
3. `BatchWriter` buffering, flushing and bisection retry
   (app/utils/neo4j_batch.py).
4. LLM response parsing (app/services/entity_extractor.py,
   app/services/relationship_extractor.py, app/models/entity_types.py).
5. Processing worker loop (services/api/app/workers/lightrag_worker.py)
   with asyncio.Queue task accounting.
6. Entity-type configuration cache (app/utils/entity_config.py).
-/

/-! ### 1. Fuzzy similarity -/

/-- Length of the longest common subsequence, with descent on an explicit
fuel argument so that the definition reduces in the kernel. Every recursive
call shortens the combined input, so `fuel = |a| + |b|` never runs out. -/
def lcsAux : Nat → List Char → List Char → Nat
  | 0, _, _ => 0
  | _ + 1, [], _ => 0
  | _ + 1, _ :: _, [] => 0
  | f + 1, a :: as, b :: bs =>
    if a = b then lcsAux f as bs + 1
    else max (lcsAux f as (b :: bs)) (lcsAux f (a :: as) bs)

/-- Length of the longest common subsequence of two character lists. -/
def lcs (a b : List Char) : Nat := lcsAux (a.length + b.length) a b

/-- Python `str.lower()` restricted to ASCII, as used on entity names. -/
def strLower (s : String) : String := ⟨s.data.map Char.toLower⟩

/-- rapidfuzz `fuzz.ratio`: normalized indel similarity on a 0–100 scale.
The indel distance is `|a| + |b| - 2 * lcs a b`, so the ratio equals
`100 * 2 * lcs / (|a| + |b|)`; two empty strings score 100. -/
def fuzzRatio (a b : String) : ℚ :=
  let la := a.data.length
  let lb := b.data.length
  if la + lb = 0 then 100 else mkRat (200 * lcs a.data b.data) (la + lb)

/-! ### 2. Entity store and deduplicator -/

/-- An Entity node as stored in Neo4j by `Neo4jEntityStore` (the fields the
deduplicator reads: id, name, type, confidence_score). -/
structure StoredEntity where
  id : Nat
  name : String
  etype : String
  conf : ℚ
deriving DecidableEq, Repr

/-- The Neo4j entity store state: the list of Entity nodes, plus the next
fresh id (modelling `uuid4()` generation). -/
structure EntityStore where
  entities : List StoredEntity
  nextId : Nat
deriving DecidableEq, Repr

/-- An `ExtractedEntity` candidate (the fields `find_or_create_entity`
reads). -/
structure Candidate where
  entity_name : String
  entity_type : String
  confidence_score : ℚ
deriving DecidableEq, Repr

/-- `Neo4jEntityStore.find_entity_by_name_and_type`: exact `(name, type)`
lookup, `LIMIT 1`. -/
def find_entity_by_name_and_type (st : EntityStore) (n t : String) :
    Option StoredEntity :=
  st.entities.find? (fun e => e.name == n && e.etype == t)

/-- `Neo4jEntityStore.find_similar_entities`: all entities of the given
type. -/
def find_similar_entities (st : EntityStore) (t : String) :
    List StoredEntity :=
  st.entities.filter (fun e => e.etype == t)

/-- `Neo4jEntityStore.merge_entities` called with `source = target`: update
the entity's confidence score in place. -/
def merge_entities (st : EntityStore) (eid : Nat) (newConf : ℚ) :
    EntityStore :=
  { st with
    entities := st.entities.map
      (fun e => if e.id = eid then { e with conf := newConf } else e) }

/-- `Neo4jEntityStore.store_entity`: create a fresh Entity node and return
its id. -/
def store_entity (st : EntityStore) (cand : Candidate) : Nat × EntityStore :=
  (st.nextId,
   { entities := st.entities ++
       [⟨st.nextId, cand.entity_name, cand.entity_type,
         cand.confidence_score⟩],
     nextId := st.nextId + 1 })

/-- Case-insensitive similarity between the (already lowercased) candidate
name and a stored entity's name, as computed in `_find_duplicate_entity`. -/
def similarity_to (nameLower : String) (c : StoredEntity) : ℚ :=
  fuzzRatio nameLower (strLower c.name)

/-- One iteration of the best-match loop in `_find_duplicate_entity`:
update `(best_match, best_similarity)` when the candidate scores strictly
above both the running best and the threshold. -/
def findDupStep (thr : ℚ) (nameLower : String)
    (acc : Option StoredEntity × ℚ) (c : StoredEntity) :
    Option StoredEntity × ℚ :=
  let s := similarity_to nameLower c
  if s > acc.2 ∧ s > thr then (some c, s) else acc

/-- `EntityDeduplicator._find_duplicate_entity`: fold the best-match loop
over all stored entities of the same type, starting from
`(best_match = None, best_similarity = 0.0)`. -/
def find_duplicate_entity (thr : ℚ) (st : EntityStore)
    (entity_name entity_type : String) : Option StoredEntity × ℚ :=
  (find_similar_entities st entity_type).foldl
    (findDupStep thr (strLower entity_name)) (none, 0)

/-- `EntityDeduplicator.find_or_create_entity`: exact match first, then
fuzzy match (updating confidence in place when strictly higher), else
create. Returns the entity id and the updated store. -/
def find_or_create_entity (thr : ℚ) (st : EntityStore) (cand : Candidate) :
    Nat × EntityStore :=
  match find_entity_by_name_and_type st cand.entity_name cand.entity_type with
  | some e => (e.id, st)
  | none =>
    match find_duplicate_entity thr st cand.entity_name cand.entity_type with
    | (some m, _) =>
      if cand.confidence_score > m.conf then
        (m.id, merge_entities st m.id cand.confidence_score)
      else
        (m.id, st)
    | (none, _) => store_entity st cand

/-! Fold lemmas for the best-match loop. -/

theorem findDup_foldl_mono (thr : ℚ) (nl : String) (l : List StoredEntity)
    (acc : Option StoredEntity × ℚ) :
    acc.2 ≤ (l.foldl (findDupStep thr nl) acc).2 := by
  induction l generalizing acc with
  | nil => simp
  | cons c l ih =>
    simp only [List.foldl_cons]
    refine le_trans ?_ (ih (findDupStep thr nl acc c))
    unfold findDupStep
    dsimp only
    split
    · next h => exact le_of_lt h.1
    · exact le_refl _

theorem findDup_foldl_some_stays (thr : ℚ) (nl : String)
    (l : List StoredEntity) (acc : Option StoredEntity × ℚ) (b : StoredEntity)
    (h : acc.1 = some b) :
    (l.foldl (findDupStep thr nl) acc).1.isSome := by
  induction l generalizing acc b with
  | nil => simp [h]
  | cons c l ih =>
    simp only [List.foldl_cons]
    unfold findDupStep
    dsimp only
    split
    · exact ih (some c, similarity_to nl c) c rfl
    · exact ih acc b h

theorem findDup_foldl_ub (thr : ℚ) (nl : String) (l : List StoredEntity)
    (acc : Option StoredEntity × ℚ) :
    ∀ c ∈ l, similarity_to nl c > thr →
      similarity_to nl c ≤ (l.foldl (findDupStep thr nl) acc).2 := by
  induction l generalizing acc with
  | nil => simp
  | cons d l ih =>
    intro c hc hgt
    simp only [List.foldl_cons]
    rcases List.mem_cons.mp hc with rfl | hmem
    · refine le_trans ?_ (findDup_foldl_mono thr nl l (findDupStep thr nl acc c))
      unfold findDupStep
      dsimp only
      split
      · exact le_refl _
      · next hcond =>
        by_cases h2 : similarity_to nl c > acc.2
        · exact absurd ⟨h2, hgt⟩ hcond
        · exact le_of_not_lt h2
    · exact ih (findDupStep thr nl acc d) c hmem hgt

theorem findDup_foldl_some (thr : ℚ) (nl : String) (l : List StoredEntity)
    (acc : Option StoredEntity × ℚ) (m : StoredEntity)
    (h : (l.foldl (findDupStep thr nl) acc).1 = some m) :
    (acc.1 = some m ∧ (l.foldl (findDupStep thr nl) acc).2 = acc.2) ∨
      (m ∈ l ∧ (l.foldl (findDupStep thr nl) acc).2 = similarity_to nl m ∧
        similarity_to nl m > thr) := by
  induction l generalizing acc with
  | nil => exact Or.inl ⟨h, rfl⟩
  | cons c l ih =>
    simp only [List.foldl_cons] at h ⊢
    by_cases hcond : similarity_to nl c > acc.2 ∧ similarity_to nl c > thr
    · have hstep : findDupStep thr nl acc c = (some c, similarity_to nl c) := by
        unfold findDupStep; dsimp only; rw [if_pos hcond]
      rw [hstep] at h ⊢
      rcases ih (some c, similarity_to nl c) h with ⟨h1, h2⟩ | ⟨h1, h2, h3⟩
      · obtain rfl : c = m := Option.some.inj h1
        exact Or.inr ⟨List.mem_cons_self _ _, h2, hcond.2⟩
      · exact Or.inr ⟨List.mem_cons_of_mem _ h1, h2, h3⟩
    · have hstep : findDupStep thr nl acc c = acc := by
        unfold findDupStep; dsimp only; rw [if_neg hcond]
      rw [hstep] at h ⊢
      rcases ih acc h with ⟨h1, h2⟩ | ⟨h1, h2, h3⟩
      · exact Or.inl ⟨h1, h2⟩
      · exact Or.inr ⟨List.mem_cons_of_mem _ h1, h2, h3⟩

theorem findDup_foldl_isSome (thr : ℚ) (nl : String) (hthr : 0 ≤ thr)
    (l : List StoredEntity)
    (h : ∃ c ∈ l, similarity_to nl c > thr) :
    ((l.foldl (findDupStep thr nl) (none, 0)).1).isSome := by
  induction l with
  | nil => simp at h
  | cons c l ih =>
    simp only [List.foldl_cons]
    by_cases hc : similarity_to nl c > (0 : ℚ) ∧ similarity_to nl c > thr
    · have hstep : findDupStep thr nl (none, 0) c =
          (some c, similarity_to nl c) := by
        unfold findDupStep; dsimp only; rw [if_pos hc]
      rw [hstep]
      exact findDup_foldl_some_stays thr nl l _ c rfl
    · have hstep : findDupStep thr nl (none, 0) c = (none, 0) := by
        unfold findDupStep; dsimp only; rw [if_neg hc]
      rw [hstep]
      apply ih
      rcases h with ⟨d, hd, hgt⟩
      rcases List.mem_cons.mp hd with rfl | hmem
      · exact absurd ⟨lt_of_le_of_lt hthr hgt, hgt⟩ hc
      · exact ⟨d, hmem, hgt⟩

theorem findDup_foldl_all_le (thr : ℚ) (nl : String) (l : List StoredEntity)
    (h : ∀ c ∈ l, similarity_to nl c ≤ thr) :
    l.foldl (findDupStep thr nl) (none, 0) = (none, 0) := by
  induction l with
  | nil => rfl
  | cons c l ih =>
    simp only [List.foldl_cons]
    have hstep : findDupStep thr nl (none, 0) c = (none, 0) := by
      unfold findDupStep; dsimp only
      rw [if_neg]
      rintro ⟨-, hgt⟩
      exact absurd hgt (not_lt.mpr (h c (List.mem_cons_self _ _)))
    rw [hstep]
    exact ih (fun c hc => h c (List.mem_cons_of_mem _ hc))

theorem merge_entities_length (st : EntityStore) (eid : Nat) (c : ℚ) :
    (merge_entities st eid c).entities.length = st.entities.length := by
  simp [merge_entities]

theorem find?_append_of_none {α : Type} (p : α → Bool) (l₁ l₂ : List α)
    (h : l₁.find? p = none) : (l₁ ++ l₂).find? p = l₂.find? p := by
  induction l₁ with
  | nil => rfl
  | cons a l ih =>
    rw [List.find?_cons] at h
    simp only [List.cons_append, List.find?_cons]
    cases hp : p a with
    | true => simp [hp] at h
    | false =>
      simp only [hp] at h ⊢
      exact ih h

theorem length_filter_map_eq {α : Type} (f : α → α) (p : α → Bool)
    (l : List α) (h : ∀ a, p (f a) = p a) :
    ((l.map f).filter p).length = (l.filter p).length := by
  induction l with
  | nil => rfl
  | cons a l ih =>
    simp only [List.map_cons, List.filter_cons, h a]
    cases p a <;> simp [ih]

/-- Fold all candidates through `find_or_create_entity`, starting from the
empty store (the shape of a processing run over extracted entities). -/
def runCalls (thr : ℚ) (cands : List Candidate) : EntityStore :=
  cands.foldl (fun st c => (find_or_create_entity thr st c).2) ⟨[], 0⟩

/-- C1: `find_or_create_entity` first performs an exact `(name, type)`
lookup and on a hit returns the stored id with the store unchanged (no
confidence update); otherwise it scans stored entities of the candidate's
type and any fuzzy best match is a same-type stored entity whose
case-insensitive similarity is strictly above the threshold and maximal
among same-type entities scoring above the threshold (and such a match is
found whenever one exists); the stored confidence is updated in place
exactly when the candidate's confidence is strictly greater, and the
existing id is returned. Concretely, with stored "Microsoft" (company) and
threshold 90, candidate "Micrsoft" (company) resolves to the stored id
with the store unchanged, while "Amazon" (company) does not resolve and
creates a new entity. -/
theorem c1_find_or_create_entity_policy (thr : ℚ) (hthr : 0 ≤ thr)
    (st : EntityStore) (cand : Candidate) :
    (∀ e, find_entity_by_name_and_type st cand.entity_name cand.entity_type
        = some e → find_or_create_entity thr st cand = (e.id, st)) ∧
    (find_entity_by_name_and_type st cand.entity_name cand.entity_type
        = none →
      (∀ m s,
        find_duplicate_entity thr st cand.entity_name cand.entity_type
          = (some m, s) →
        m ∈ st.entities ∧ m.etype = cand.entity_type ∧
        s = similarity_to (strLower cand.entity_name) m ∧ s > thr ∧
        (∀ c ∈ find_similar_entities st cand.entity_type,
          similarity_to (strLower cand.entity_name) c > thr →
          similarity_to (strLower cand.entity_name) c ≤ s) ∧
        find_or_create_entity thr st cand =
          (if cand.confidence_score > m.conf then
            (m.id, merge_entities st m.id cand.confidence_score)
          else (m.id, st))) ∧
      ((∃ c ∈ find_similar_entities st cand.entity_type,
          similarity_to (strLower cand.entity_name) c > thr) →
        ((find_duplicate_entity thr st cand.entity_name
            cand.entity_type).1).isSome)) ∧
    (find_or_create_entity 90 ⟨[⟨0, "Microsoft", "company", mkRat 9 10⟩], 1⟩
        ⟨"Micrsoft", "company", mkRat 9 10⟩
      = (0, ⟨[⟨0, "Microsoft", "company", mkRat 9 10⟩], 1⟩) ∧
     (find_or_create_entity 90 ⟨[⟨0, "Microsoft", "company", mkRat 9 10⟩], 1⟩
        ⟨"Amazon", "company", mkRat 9 10⟩).1 = 1 ∧
     (find_or_create_entity 90 ⟨[⟨0, "Microsoft", "company", mkRat 9 10⟩], 1⟩
        ⟨"Amazon", "company", mkRat 9 10⟩).2.entities.length = 2) := by
  refine ⟨?_, ?_, by decide, by decide, by decide⟩
  · intro e he
    unfold find_or_create_entity
    rw [he]
  · intro hnone
    constructor
    · intro m s hdup
      unfold find_duplicate_entity at hdup
      have h1 := congrArg Prod.fst hdup
      have h2 := congrArg Prod.snd hdup
      dsimp only at h1 h2
      rcases findDup_foldl_some thr (strLower cand.entity_name) _ _ m h1 with
        ⟨hl, -⟩ | ⟨hm, hs, hgt⟩
      · simp at hl
      · have hmem : m ∈ st.entities ∧ (m.etype == cand.entity_type) = true :=
          List.mem_filter.mp hm
        refine ⟨hmem.1, eq_of_beq hmem.2, ?_, ?_, ?_, ?_⟩
        · rw [← h2, hs]
        · rw [← h2, hs]
          exact hgt
        · intro c hc hcgt
          have := findDup_foldl_ub thr (strLower cand.entity_name)
            (find_similar_entities st cand.entity_type) (none, 0) c hc hcgt
          rw [h2] at this
          exact this
        · unfold find_or_create_entity
          rw [hnone]
          unfold find_duplicate_entity
          rw [hdup]
    · intro hex
      unfold find_duplicate_entity
      exact findDup_foldl_isSome thr (strLower cand.entity_name) hthr _ hex

theorem c1_find_or_create_entity_policy_witness :
    (0 : ℚ) ≤ 90 ∧
    (find_or_create_entity 90 ⟨[⟨0, "Microsoft", "company", mkRat 9 10⟩], 1⟩
      ⟨"Micrsoft", "company", mkRat 9 10⟩).1 = 0 :=
  ⟨by norm_num, by
    have h := c1_find_or_create_entity_policy 90 (by norm_num)
      ⟨[⟨0, "Microsoft", "company", mkRat 9 10⟩], 1⟩
      ⟨"Micrsoft", "company", mkRat 9 10⟩
    rw [h.2.2.1]⟩

/-- C4: when the first `find_or_create_entity` call stored a new entity, a
second call with the same candidate returns the same id and leaves the
store unchanged — exactly one stored entity is created, not two. -/
theorem c4_idempotent_exact_dedup (thr : ℚ) (st : EntityStore)
    (cand : Candidate)
    (hcreated : (find_or_create_entity thr st cand).2.entities.length
      = st.entities.length + 1) :
    (find_or_create_entity thr
        (find_or_create_entity thr st cand).2 cand).1
      = (find_or_create_entity thr st cand).1 ∧
    (find_or_create_entity thr
        (find_or_create_entity thr st cand).2 cand).2
      = (find_or_create_entity thr st cand).2 := by
  cases hexact : find_entity_by_name_and_type st cand.entity_name
      cand.entity_type with
  | some e =>
    exfalso
    unfold find_or_create_entity at hcreated
    rw [hexact] at hcreated
    dsimp only at hcreated
    omega
  | none =>
    rcases hdup : find_duplicate_entity thr st cand.entity_name
        cand.entity_type with ⟨b, s⟩
    cases b with
    | some m =>
      exfalso
      unfold find_or_create_entity at hcreated
      rw [hexact, hdup] at hcreated
      dsimp only at hcreated
      by_cases hconf : cand.confidence_score > m.conf
      · rw [if_pos hconf] at hcreated
        dsimp only at hcreated
        rw [merge_entities_length] at hcreated
        omega
      · rw [if_neg hconf] at hcreated
        dsimp only at hcreated
        omega
    | none =>
      have hfoc : find_or_create_entity thr st cand = store_entity st cand := by
        unfold find_or_create_entity
        rw [hexact, hdup]
      rw [hfoc]
      have hfind : find_entity_by_name_and_type (store_entity st cand).2
          cand.entity_name cand.entity_type
          = some ⟨st.nextId, cand.entity_name, cand.entity_type,
              cand.confidence_score⟩ := by
        unfold find_entity_by_name_and_type at hexact
        unfold find_entity_by_name_and_type store_entity
        dsimp only
        rw [find?_append_of_none _ _ _ hexact]
        simp
      have h2 : find_or_create_entity thr (store_entity st cand).2 cand
          = (st.nextId, (store_entity st cand).2) := by
        unfold find_or_create_entity
        rw [hfind]
      rw [h2]
      exact ⟨rfl, rfl⟩

theorem c4_idempotent_exact_dedup_witness :
    (find_or_create_entity 90 ⟨[], 0⟩
        ⟨"Ada", "person", mkRat 1 2⟩).2.entities.length
      = (⟨[], 0⟩ : EntityStore).entities.length + 1 ∧
    (find_or_create_entity 90
        (find_or_create_entity 90 ⟨[], 0⟩ ⟨"Ada", "person", mkRat 1 2⟩).2
        ⟨"Ada", "person", mkRat 1 2⟩).1
      = (find_or_create_entity 90 ⟨[], 0⟩ ⟨"Ada", "person", mkRat 1 2⟩).1 :=
  ⟨by decide,
   (c4_idempotent_exact_dedup 90 ⟨[], 0⟩ ⟨"Ada", "person", mkRat 1 2⟩
     (by decide)).1⟩



/-- Store witnessing that a same-name different-type candidate need not
create a new entity: "Microsoft" (company) plus the similarly named
"Microsof" (person). -/
def c6Store : EntityStore :=
  ⟨[⟨0, "Microsoft", "company", mkRat 9 10⟩,
    ⟨1, "Microsof", "person", mkRat 9 10⟩], 2⟩

/-- Candidate "Microsoft" of type person, matching the stored company by
name only. -/
def c6Cand : Candidate := ⟨"Microsoft", "person", mkRat 1 2⟩

/-- C6 counterexample: the candidate's name equals a stored entity's name
and its type differs from every stored entity of that name, yet
`find_or_create_entity` does not create a new stored entity — it fuzzy
resolves to the same-type entity "Microsof" (id 1) instead. -/
theorem c6_counterexample :
    (∃ e ∈ c6Store.entities, e.name = c6Cand.entity_name) ∧
    (∀ e ∈ c6Store.entities,
      e.name = c6Cand.entity_name → e.etype ≠ c6Cand.entity_type) ∧
    (find_or_create_entity 90 c6Store c6Cand).2.entities.length
      = c6Store.entities.length ∧
    (find_or_create_entity 90 c6Store c6Cand).1 = 1 := by decide

theorem foc_preserves_unique (thr : ℚ) (st : EntityStore) (cand : Candidate)
    (h : ∀ n t,
      (st.entities.filter (fun e => e.name == n && e.etype == t)).length ≤ 1) :
    ∀ n t,
      ((find_or_create_entity thr st cand).2.entities.filter
        (fun e => e.name == n && e.etype == t)).length ≤ 1 := by
  intro n t
  cases hexact : find_entity_by_name_and_type st cand.entity_name
      cand.entity_type with
  | some e =>
    have hfoc : (find_or_create_entity thr st cand).2 = st := by
      unfold find_or_create_entity
      rw [hexact]
    rw [hfoc]
    exact h n t
  | none =>
    rcases hdup : find_duplicate_entity thr st cand.entity_name
        cand.entity_type with ⟨b, s⟩
    cases b with
    | some m =>
      unfold find_or_create_entity
      rw [hexact, hdup]
      dsimp only
      by_cases hconf : cand.confidence_score > m.conf
      · rw [if_pos hconf]
        dsimp only
        unfold merge_entities
        dsimp only
        rw [length_filter_map_eq]
        · exact h n t
        · intro a
          by_cases ha : a.id = m.id
          · rw [if_pos ha]
          · rw [if_neg ha]
      · rw [if_neg hconf]
        dsimp only
        exact h n t
    | none =>
      unfold find_or_create_entity
      rw [hexact, hdup]
      dsimp only
      unfold store_entity
      dsimp only
      rw [List.filter_append, List.length_append]
      by_cases hp : (cand.entity_name == n && cand.entity_type == t) = true
      · have hp' := hp
        rw [Bool.and_eq_true] at hp'
        have hcn : cand.entity_name = n := eq_of_beq hp'.1
        have hct : cand.entity_type = t := eq_of_beq hp'.2
        have hold : st.entities.filter (fun e => e.name == n && e.etype == t)
            = [] := by
          rw [List.filter_eq_nil_iff]
          intro e he hpe
          unfold find_entity_by_name_and_type at hexact
          rw [List.find?_eq_none] at hexact
          apply hexact e he
          rw [hcn, hct]
          exact hpe
        rw [hold]
        simp [hp]
      · have hnew : List.filter (fun e => e.name == n && e.etype == t)
            [(⟨st.nextId, cand.entity_name, cand.entity_type,
              cand.confidence_score⟩ : StoredEntity)] = [] := by
          simp only [List.filter, List.filter_nil]
          rw [Bool.eq_false_iff.mpr hp]
        rw [hnew]
        simpa using h n t

/-- C6 (amended): `find_or_create_entity` never resolves a candidate
against a stored entity of a different type — the returned id always
belongs to an entity of the candidate's type in the resulting store; a
candidate whose name equals only differently-typed stored entities creates
a new entity provided no same-type stored entity scores strictly above the
threshold; and after any sequence of calls starting from the empty store
there is at most one stored entity per `(name, type)` pair. -/
theorem c6_type_isolation (thr : ℚ) (st : EntityStore) (cand : Candidate) :
    (∃ e ∈ (find_or_create_entity thr st cand).2.entities,
      e.id = (find_or_create_entity thr st cand).1 ∧
      e.etype = cand.entity_type) ∧
    ((∀ e ∈ st.entities,
        e.name = cand.entity_name → e.etype ≠ cand.entity_type) →
      (∀ c ∈ find_similar_entities st cand.entity_type,
        similarity_to (strLower cand.entity_name) c ≤ thr) →
      (find_or_create_entity thr st cand).2.entities.length
        = st.entities.length + 1) ∧
    (∀ cands : List Candidate, ∀ n t : String,
      ((runCalls thr cands).entities.filter
        (fun e => e.name == n && e.etype == t)).length ≤ 1) := by
  refine ⟨?_, ?_, ?_⟩
  · cases hexact : find_entity_by_name_and_type st cand.entity_name
        cand.entity_type with
    | some e =>
      have hfoc : find_or_create_entity thr st cand = (e.id, st) := by
        unfold find_or_create_entity
        rw [hexact]
      rw [hfoc]
      have hmem : e ∈ st.entities := List.mem_of_find?_eq_some hexact
      have hpe := List.find?_some hexact
      rw [Bool.and_eq_true] at hpe
      exact ⟨e, hmem, rfl, eq_of_beq hpe.2⟩
    | none =>
      rcases hdup : find_duplicate_entity thr st cand.entity_name
          cand.entity_type with ⟨b, s⟩
      cases b with
      | some m =>
        have h1 : ((find_similar_entities st cand.entity_type).foldl
            (findDupStep thr (strLower cand.entity_name)) (none, 0)).1
            = some m := by
          unfold find_duplicate_entity at hdup
          rw [hdup]
        rcases findDup_foldl_some thr (strLower cand.entity_name) _ _ m h1
          with ⟨hl, -⟩ | ⟨hm, -, -⟩
        · simp at hl
        · have hmem := List.mem_filter.mp hm
          have hmtype : m.etype = cand.entity_type := eq_of_beq hmem.2
          unfold find_or_create_entity
          rw [hexact, hdup]
          dsimp only
          by_cases hconf : cand.confidence_score > m.conf
          · rw [if_pos hconf]
            dsimp only
            refine ⟨⟨m.id, m.name, m.etype, cand.confidence_score⟩, ?_, rfl,
              hmtype⟩
            unfold merge_entities
            dsimp only
            refine List.mem_map.mpr ⟨m, hmem.1, ?_⟩
            rw [if_pos rfl]
          · rw [if_neg hconf]
            dsimp only
            exact ⟨m, hmem.1, rfl, hmtype⟩
      | none =>
        unfold find_or_create_entity
        rw [hexact, hdup]
        unfold store_entity
        dsimp only
        exact ⟨⟨st.nextId, cand.entity_name, cand.entity_type,
          cand.confidence_score⟩,
          List.mem_append_right _ (by simp), rfl, rfl⟩
  · intro hname hsim
    have hexact : find_entity_by_name_and_type st cand.entity_name
        cand.entity_type = none := by
      unfold find_entity_by_name_and_type
      rw [List.find?_eq_none]
      intro e he hp
      rw [Bool.and_eq_true] at hp
      exact hname e he (eq_of_beq hp.1) (eq_of_beq hp.2)
    have hdup : find_duplicate_entity thr st cand.entity_name
        cand.entity_type = (none, 0) := by
      unfold find_duplicate_entity
      exact findDup_foldl_all_le thr _ _ hsim
    unfold find_or_create_entity
    rw [hexact, hdup]
    unfold store_entity
    simp
  · intro cands n t
    suffices h : ∀ (cs : List Candidate) (st0 : EntityStore),
        (∀ n' t', ((st0.entities.filter
          (fun e => e.name == n' && e.etype == t')).length ≤ 1)) →
        ∀ n' t', (((cs.foldl
            (fun s c => (find_or_create_entity thr s c).2) st0).entities.filter
          (fun e => e.name == n' && e.etype == t')).length ≤ 1) by
      exact h cands ⟨[], 0⟩ (by intro n' t'; simp) n t
    intro cs
    induction cs with
    | nil =>
      intro st0 h n' t'
      exact h n' t'
    | cons c cs ih =>
      intro st0 h n' t'
      simp only [List.foldl_cons]
      exact ih _ (foc_preserves_unique thr st0 c h) n' t'

theorem c6_type_isolation_witness :
    (∀ e ∈ (⟨[⟨0, "Bob", "company", mkRat 1 2⟩], 1⟩ :
        EntityStore).entities, e.name = "Bob" → e.etype ≠ "person") ∧
    (∀ c ∈ find_similar_entities ⟨[⟨0, "Bob", "company", mkRat 1 2⟩], 1⟩
        "person", similarity_to (strLower "Bob") c ≤ 90) ∧
    (find_or_create_entity 90 ⟨[⟨0, "Bob", "company", mkRat 1 2⟩], 1⟩
        ⟨"Bob", "person", mkRat 1 2⟩).2.entities.length
      = (⟨[⟨0, "Bob", "company", mkRat 1 2⟩], 1⟩ :
          EntityStore).entities.length + 1 :=
  ⟨by decide, by decide,
   (c6_type_isolation 90 ⟨[⟨0, "Bob", "company", mkRat 1 2⟩], 1⟩
     ⟨"Bob", "person", mkRat 1 2⟩).2.1 (by decide) (by decide)⟩

/-! ### 3. BatchWriter (app/utils/neo4j_batch.py) -/

/-- Write-outcome model for the Neo4j session: a bulk or single-item write
succeeds exactly when the batch contains no malformed item (`bad` marks the
malformed items). This is the failure model of the spec's bisection
scenario: an individual write of a malformed item fails, and every write
not containing it succeeds. -/
def runWriteOk {α : Type} (bad : α → Bool) (batch : List α) : Bool :=
  !batch.any bad

/-- Slices `items[i : i + bs]` for `i = 0, bs, 2*bs, ...`, as produced by
the retry loop `for i in range(0, len(items), batch_size)`. The fuel
argument (bounded by the list length) keeps the definition
kernel-reducible; on the code path `bs ≥ 1` always holds. -/
def chunksOfAux {α : Type} (bs : Nat) : Nat → List α → List (List α)
  | _, [] => []
  | 0, _ :: _ => []
  | f + 1, a :: l => ((a :: l).take bs) :: chunksOfAux bs f ((a :: l).drop bs)

/-- The successive slices of `l` of size `bs` (last one possibly
shorter). -/
def chunksOf {α : Type} (bs : Nat) (l : List α) : List (List α) :=
  chunksOfAux bs l.length l

theorem chunksOfAux_mem_length {α : Type} (bs : Nat) :
    ∀ (f : Nat) (l : List α), ∀ c ∈ chunksOfAux bs f l, c.length ≤ bs := by
  intro f
  induction f with
  | zero =>
    intro l c hc
    cases l with
    | nil => simp [chunksOfAux] at hc
    | cons a l => simp [chunksOfAux] at hc
  | succ f ih =>
    intro l c hc
    cases l with
    | nil => simp [chunksOfAux] at hc
    | cons a l =>
      simp only [chunksOfAux, List.mem_cons] at hc
      rcases hc with rfl | hc
      · exact List.length_take_le _ _
      · exact ih _ c hc

theorem chunksOf_mem_length {α : Type} (bs : Nat) (l : List α) :
    ∀ c ∈ chunksOf bs l, c.length ≤ bs :=
  chunksOfAux_mem_length bs l.length l

theorem chunksOfAux_fuel_irrel {α : Type} (bs : Nat) (hbs : 1 ≤ bs) :
    ∀ (f g : Nat) (l : List α), l.length ≤ f → l.length ≤ g →
      chunksOfAux bs f l = chunksOfAux bs g l := by
  intro f
  induction f with
  | zero =>
    intro g l hf hg
    have : l = [] := List.length_eq_zero.mp (Nat.le_zero.mp hf)
    subst this
    cases g <;> rfl
  | succ f ih =>
    intro g l hf hg
    cases l with
    | nil => cases g <;> rfl
    | cons a l =>
      cases g with
      | zero => simp at hg
      | succ g =>
        simp only [chunksOfAux]
        congr 1
        apply ih
        · simp only [List.length_cons] at hf
          simp only [List.length_drop, List.length_cons]
          omega
        · simp only [List.length_cons] at hg
          simp only [List.length_drop, List.length_cons]
          omega

theorem chunksOf_cons_eq {α : Type} (bs : Nat) (hbs : 1 ≤ bs) (l : List α)
    (hl : l ≠ []) :
    chunksOf bs l = l.take bs :: chunksOf bs (l.drop bs) := by
  cases l with
  | nil => exact absurd rfl hl
  | cons a l =>
    show chunksOfAux bs (a :: l).length (a :: l) = _
    simp only [List.length_cons, chunksOfAux]
    congr 1
    apply chunksOfAux_fuel_irrel bs hbs
    · simp only [List.length_drop, List.length_cons]
      omega
    · exact le_refl _

theorem chunksOf_join {α : Type} (bs : Nat) (hbs : 1 ≤ bs) :
    ∀ (n : Nat) (l : List α), l.length ≤ n → (chunksOf bs l).flatten = l := by
  intro n
  induction n with
  | zero =>
    intro l h
    have : l = [] := List.length_eq_zero.mp (Nat.le_zero.mp h)
    subst this
    rfl
  | succ n ih =>
    intro l h
    cases hl : l with
    | nil => rfl
    | cons a l' =>
      rw [← hl]
      rw [chunksOf_cons_eq bs hbs l (by rw [hl]; simp)]
      rw [List.flatten_cons]
      rw [ih (l.drop bs)]
      · exact List.take_append_drop bs l
      · rw [List.length_drop]
        rw [hl] at h ⊢
        simp only [List.length_cons] at h ⊢
        omega

theorem chunksOf_ne_nil_mem {α : Type} (bs : Nat) (hbs : 1 ≤ bs)
    (l : List α) : ∀ c ∈ chunksOf bs l, c ≠ [] := by
  suffices h : ∀ (f : Nat) (l : List α), ∀ c ∈ chunksOfAux bs f l, c ≠ [] by
    exact h l.length l
  intro f
  induction f with
  | zero =>
    intro l c hc
    cases l <;> simp [chunksOfAux] at hc
  | succ f ih =>
    intro l c hc
    cases l with
    | nil => simp [chunksOfAux] at hc
    | cons a l =>
      simp only [chunksOfAux, List.mem_cons] at hc
      rcases hc with rfl | hc
      · cases bs with
        | zero => omega
        | succ b => simp
      · exact ih _ c hc

theorem chunksOf_length_ge_two {α : Type} (bs : Nat) (hbs : 1 ≤ bs)
    (l : List α) (h : bs < l.length) : 2 ≤ (chunksOf bs l).length := by
  have hl : l ≠ [] := by
    intro he
    rw [he] at h
    simp at h
  rw [chunksOf_cons_eq bs hbs l hl]
  have hd : l.drop bs ≠ [] := by
    intro he
    have := congrArg List.length he
    rw [List.length_drop] at this
    simp at this
    omega
  have : chunksOf bs (l.drop bs) ≠ [] := by
    cases hld : l.drop bs with
    | nil => exact absurd hld hd
    | cons a l' =>
      rw [chunksOf_cons_eq bs hbs _ (by simp)]
      simp
  cases hc : chunksOf bs (l.drop bs) with
  | nil => exact absurd hc this
  | cons d ds => simp

/-- `BatchWriter._retry_with_smaller_batches`: retry a failed batch with
slices of half the size, recursing on slices that still fail; once the
slice size reaches zero (singleton input), fall back to per-item writes,
dropping (after logging) any item whose individual write still fails.
`okBulk` and `okSingle` model the store's outcome for a bulk slice write
and for the per-item fallback write. Returns the items actually persisted
and the number of write attempts performed. -/
def retry_with_smaller_batches {α : Type} (okBulk : List α → Bool)
    (okSingle : α → Bool) (items : List α) : List α × Nat :=
  if h : items.length / 2 = 0 then
    (items.filter okSingle, items.length)
  else
    let results := (chunksOf (items.length / 2) items).attach.map
      (fun c =>
        if okBulk c.1 then (c.1, 1)
        else
          ((retry_with_smaller_batches okBulk okSingle c.1).1,
           1 + (retry_with_smaller_batches okBulk okSingle c.1).2))
    ((results.map Prod.fst).flatten, (results.map Prod.snd).sum)
termination_by items.length
decreasing_by
  all_goals
    have h1 : c.1.length ≤ items.length / 2 :=
      chunksOf_mem_length _ items c.1 c.2
  all_goals omega

/-- The per-slice outcome inside the retry loop: a clean bulk write
persists the slice in one attempt, otherwise the slice is retried
recursively. -/
def retryChunk {α : Type} (okBulk : List α → Bool) (okSingle : α → Bool)
    (batch : List α) : List α × Nat :=
  if okBulk batch then (batch, 1)
  else
    ((retry_with_smaller_batches okBulk okSingle batch).1,
     1 + (retry_with_smaller_batches okBulk okSingle batch).2)

theorem retry_eq_zero {α : Type} (okBulk : List α → Bool)
    (okSingle : α → Bool) (items : List α) (h : items.length / 2 = 0) :
    retry_with_smaller_batches okBulk okSingle items
      = (items.filter okSingle, items.length) := by
  rw [retry_with_smaller_batches]
  rw [dif_pos h]

theorem retry_eq_pos {α : Type} (okBulk : List α → Bool)
    (okSingle : α → Bool) (items : List α) (h : ¬ items.length / 2 = 0) :
    retry_with_smaller_batches okBulk okSingle items
      = ((((chunksOf (items.length / 2) items).map
            (retryChunk okBulk okSingle)).map Prod.fst).flatten,
         (((chunksOf (items.length / 2) items).map
            (retryChunk okBulk okSingle)).map Prod.snd).sum) := by
  rw [retry_with_smaller_batches]
  rw [dif_neg h]
  dsimp only
  rw [List.attach_map_val (chunksOf (items.length / 2) items)
    (fun batch => if okBulk batch then (batch, 1)
      else ((retry_with_smaller_batches okBulk okSingle batch).1,
        1 + (retry_with_smaller_batches okBulk okSingle batch).2))]
  rfl

theorem retry_persists_filter {α : Type} (bad : α → Bool) :
    ∀ (n : Nat) (items : List α), items.length ≤ n →
      (retry_with_smaller_batches (runWriteOk bad) (fun i => !bad i)
        items).1 = items.filter (fun i => !bad i) := by
  intro n
  induction n with
  | zero =>
    intro items h
    rw [retry_eq_zero _ _ items (by omega)]
  | succ n ih =>
    intro items h
    by_cases h0 : items.length / 2 = 0
    · rw [retry_eq_zero _ _ items h0]
    · rw [retry_eq_pos _ _ items h0]
      dsimp only
      have hbs : 1 ≤ items.length / 2 := Nat.pos_of_ne_zero h0
      have hfst : (chunksOf (items.length / 2) items).map
            (fun c => (retryChunk (runWriteOk bad) (fun i => !bad i) c).1)
          = (chunksOf (items.length / 2) items).map
            (List.filter (fun i => !bad i)) := by
        apply List.map_congr_left
        intro c hc
        unfold retryChunk
        by_cases hok : runWriteOk bad c
        · rw [if_pos hok]
          dsimp only
          refine (List.filter_eq_self.mpr ?_).symm
          intro a ha
          unfold runWriteOk at hok
          rw [Bool.not_eq_true', List.any_eq_false] at hok
          simp [hok a ha]
        · rw [if_neg hok]
          dsimp only
          apply ih
          have h1 : c.length ≤ items.length / 2 :=
            chunksOf_mem_length _ _ c hc
          omega
      rw [List.map_map]
      rw [show (Prod.fst ∘ retryChunk (runWriteOk bad) fun i => !bad i)
          = (fun c => (retryChunk (runWriteOk bad) (fun i => !bad i) c).1)
        from rfl]
      rw [hfst]
      rw [← List.filter_flatten]
      rw [chunksOf_join (items.length / 2) hbs items.length items (le_refl _)]

theorem length_le_sum_lengths {α : Type} :
    ∀ L : List (List α), (∀ c ∈ L, c ≠ []) →
      L.length ≤ (L.map List.length).sum := by
  intro L
  induction L with
  | nil => simp
  | cons c L ih =>
    intro h
    simp only [List.map_cons, List.sum_cons, List.length_cons]
    have hc : 1 ≤ c.length :=
      List.length_pos.mpr (h c (List.mem_cons_self _ _))
    have := ih (fun d hd => h d (List.mem_cons_of_mem _ hd))
    omega

theorem sum_three_mul_sub_one {α : Type} :
    ∀ L : List (List α), (∀ c ∈ L, c ≠ []) →
      (L.map (fun c => 3 * c.length - 1)).sum
        = 3 * (L.map List.length).sum - L.length := by
  intro L
  induction L with
  | nil => simp
  | cons c L ih =>
    intro h
    simp only [List.map_cons, List.sum_cons, List.length_cons]
    rw [ih (fun d hd => h d (List.mem_cons_of_mem _ hd))]
    have hc : 1 ≤ c.length :=
      List.length_pos.mpr (h c (List.mem_cons_self _ _))
    have hL := length_le_sum_lengths L
      (fun d hd => h d (List.mem_cons_of_mem _ hd))
    omega

theorem retry_attempts_bound {α : Type} (okBulk : List α → Bool)
    (okSingle : α → Bool) :
    ∀ (n : Nat) (items : List α), items.length ≤ n → 1 ≤ items.length →
      (retry_with_smaller_batches okBulk okSingle items).2
        ≤ 3 * items.length - 2 := by
  intro n
  induction n with
  | zero => intro items h h1; omega
  | succ n ih =>
    intro items h h1
    by_cases h0 : items.length / 2 = 0
    · rw [retry_eq_zero _ _ items h0]
      dsimp only
      omega
    · rw [retry_eq_pos _ _ items h0]
      dsimp only
      have hbs : 1 ≤ items.length / 2 := Nat.pos_of_ne_zero h0
      have hchunk : ∀ c ∈ chunksOf (items.length / 2) items,
          (retryChunk okBulk okSingle c).2 ≤ 3 * c.length - 1 := by
        intro c hc
        have hlen : c.length ≤ items.length / 2 :=
          chunksOf_mem_length _ _ c hc
        have hne : c ≠ [] := chunksOf_ne_nil_mem _ hbs _ c hc
        have hcl : 1 ≤ c.length := List.length_pos.mpr hne
        unfold retryChunk
        by_cases hok : okBulk c
        · rw [if_pos hok]
          dsimp only
          omega
        · rw [if_neg hok]
          dsimp only
          have := ih c (by omega) hcl
          omega
      have hsum : (((chunksOf (items.length / 2) items).map
            (retryChunk okBulk okSingle)).map Prod.snd).sum
          ≤ ((chunksOf (items.length / 2) items).map
            (fun c => 3 * c.length - 1)).sum := by
        rw [List.map_map]
        exact List.sum_le_sum (fun c hc => hchunk c hc)
      have hjoin := chunksOf_join (items.length / 2) hbs items.length items
        (le_refl _)
      have hlensum : ((chunksOf (items.length / 2) items).map
          List.length).sum = items.length := by
        rw [← List.length_flatten, hjoin]
      have hk : 2 ≤ (chunksOf (items.length / 2) items).length :=
        chunksOf_length_ge_two _ hbs items (by omega)
      have heq := sum_three_mul_sub_one (chunksOf (items.length / 2) items)
        (chunksOf_ne_nil_mem _ hbs items)
      rw [heq, hlensum] at hsum
      omega

/-- The `BatchWriter` state: configured batch size, the two buffers, the
Entity and RELATIONSHIP rows persisted in the graph store, and counters of
flush invocations (instrumenting how often each flush method is called). -/
structure BatchWriterState (α β : Type) where
  batch_size : Nat
  entity_buffer : List α
  relationship_buffer : List β
  entity_store : List α
  relationship_store : List β
  entity_flush_count : Nat
  relationship_flush_count : Nat
deriving DecidableEq, Repr

/-- `BatchWriter.flush_entities`: an empty buffer returns immediately; a
clean bulk write persists the whole buffer and clears it; a failed bulk
write over more than one item runs the bisection retry and clears the
buffer; a failed single-item write re-raises — the Bool result is the
raised flag, and the buffer is left intact in that case. -/
def flush_entities {α β : Type} (okBulk : List α → Bool)
    (okSingle : α → Bool) (w : BatchWriterState α β) :
    BatchWriterState α β × Bool :=
  let w' := { w with entity_flush_count := w.entity_flush_count + 1 }
  if w.entity_buffer.isEmpty then (w', false)
  else if okBulk w.entity_buffer then
    ({ w' with
       entity_store := w'.entity_store ++ w.entity_buffer,
       entity_buffer := [] }, false)
  else if w.entity_buffer.length > 1 then
    ({ w' with
       entity_store := w'.entity_store ++
         (retry_with_smaller_batches okBulk okSingle w.entity_buffer).1,
       entity_buffer := [] }, false)
  else (w', true)

/-- `BatchWriter.flush_relationships` (same shape as `flush_entities`, on
the relationship buffer). -/
def flush_relationships {α β : Type} (okBulk : List β → Bool)
    (okSingle : β → Bool) (w : BatchWriterState α β) :
    BatchWriterState α β × Bool :=
  let w' := { w with
    relationship_flush_count := w.relationship_flush_count + 1 }
  if w.relationship_buffer.isEmpty then (w', false)
  else if okBulk w.relationship_buffer then
    ({ w' with
       relationship_store := w'.relationship_store ++ w.relationship_buffer,
       relationship_buffer := [] }, false)
  else if w.relationship_buffer.length > 1 then
    ({ w' with
       relationship_store := w'.relationship_store ++
         (retry_with_smaller_batches okBulk okSingle
           w.relationship_buffer).1,
       relationship_buffer := [] }, false)
  else (w', true)

/-- `BatchWriter.add_entity`: buffer the item, then flush when the buffer
has reached `batch_size`. -/
def add_entity {α β : Type} (okBulk : List α → Bool) (okSingle : α → Bool)
    (w : BatchWriterState α β) (e : α) : BatchWriterState α β × Bool :=
  let w' := { w with entity_buffer := w.entity_buffer ++ [e] }
  if w'.batch_size ≤ w'.entity_buffer.length then
    flush_entities okBulk okSingle w'
  else (w', false)

/-- `BatchWriter.add_relationship`: buffer the item, then flush when the
buffer has reached `batch_size`. -/
def add_relationship {α β : Type} (okBulk : List β → Bool)
    (okSingle : β → Bool) (w : BatchWriterState α β) (r : β) :
    BatchWriterState α β × Bool :=
  let w' := { w with
    relationship_buffer := w.relationship_buffer ++ [r] }
  if w'.batch_size ≤ w'.relationship_buffer.length then
    flush_relationships okBulk okSingle w'
  else (w', false)

/-- Run a sequence of `add_entity` calls, stopping if one raises. -/
def add_entities_seq {α β : Type} (okBulk : List α → Bool)
    (okSingle : α → Bool) :
    BatchWriterState α β → List α → BatchWriterState α β × Bool
  | w, [] => (w, false)
  | w, e :: es =>
    match add_entity okBulk okSingle w e with
    | (w', false) => add_entities_seq okBulk okSingle w' es
    | (w', true) => (w', true)

/-- Run a sequence of `add_relationship` calls, stopping if one raises. -/
def add_relationships_seq {α β : Type} (okBulk : List β → Bool)
    (okSingle : β → Bool) :
    BatchWriterState α β → List β → BatchWriterState α β × Bool
  | w, [] => (w, false)
  | w, r :: rs =>
    match add_relationship okBulk okSingle w r with
    | (w', false) => add_relationships_seq okBulk okSingle w' rs
    | (w', true) => (w', true)

/-- A fresh `BatchWriter` with the given batch size. -/
def initWriter (α β : Type) (B : Nat) : BatchWriterState α β :=
  ⟨B, [], [], [], [], 0, 0⟩

theorem add_entities_seq_no_flush {α β : Type} (okB : List α → Bool)
    (okS : α → Bool) (l1 l2 : List α) :
    ∀ w : BatchWriterState α β,
      w.entity_buffer.length + l1.length < w.batch_size →
      add_entities_seq okB okS w (l1 ++ l2)
        = add_entities_seq okB okS
            { w with entity_buffer := w.entity_buffer ++ l1 } l2 := by
  induction l1 with
  | nil =>
    intro w h
    simp
  | cons e l1 ih =>
    intro w h
    simp only [List.cons_append, add_entities_seq]
    have hadd : add_entity okB okS w e
        = ({ w with entity_buffer := w.entity_buffer ++ [e] }, false) := by
      unfold add_entity
      rw [if_neg]
      dsimp only
      simp only [List.length_append, List.length_cons] at h ⊢
      simp only [List.length_nil]
      omega
    rw [hadd]
    rw [show w.entity_buffer ++ (e :: l1) = (w.entity_buffer ++ [e]) ++ l1
      by simp]
    exact ih { w with entity_buffer := w.entity_buffer ++ [e] }
      (by simp only [List.length_append, List.length_cons,
            List.length_nil] at h ⊢; omega)

theorem add_relationships_seq_no_flush {α β : Type} (okB : List β → Bool)
    (okS : β → Bool) (l1 l2 : List β) :
    ∀ w : BatchWriterState α β,
      w.relationship_buffer.length + l1.length < w.batch_size →
      add_relationships_seq okB okS w (l1 ++ l2)
        = add_relationships_seq okB okS
            { w with relationship_buffer := w.relationship_buffer ++ l1 }
            l2 := by
  induction l1 with
  | nil =>
    intro w h
    simp
  | cons r l1 ih =>
    intro w h
    simp only [List.cons_append, add_relationships_seq]
    have hadd : add_relationship okB okS w r
        = ({ w with relationship_buffer :=
              w.relationship_buffer ++ [r] }, false) := by
      unfold add_relationship
      rw [if_neg]
      dsimp only
      simp only [List.length_append, List.length_cons] at h ⊢
      simp only [List.length_nil]
      omega
    rw [hadd]
    rw [show w.relationship_buffer ++ (r :: l1)
        = (w.relationship_buffer ++ [r]) ++ l1 by simp]
    exact ih { w with relationship_buffer := w.relationship_buffer ++ [r] }
      (by simp only [List.length_append, List.length_cons,
            List.length_nil] at h ⊢; omega)

theorem flush_entities_ok {α β : Type} (okB : List α → Bool)
    (okS : α → Bool) (w : BatchWriterState α β)
    (hne : w.entity_buffer ≠ []) (hok : okB w.entity_buffer = true) :
    flush_entities okB okS w
      = ({ w with
           entity_flush_count := w.entity_flush_count + 1,
           entity_store := w.entity_store ++ w.entity_buffer,
           entity_buffer := [] }, false) := by
  unfold flush_entities
  dsimp only
  rw [if_neg (by simp [hne]), if_pos hok]

theorem flush_relationships_ok {α β : Type} (okB : List β → Bool)
    (okS : β → Bool) (w : BatchWriterState α β)
    (hne : w.relationship_buffer ≠ [])
    (hok : okB w.relationship_buffer = true) :
    flush_relationships okB okS w
      = ({ w with
           relationship_flush_count := w.relationship_flush_count + 1,
           relationship_store :=
             w.relationship_store ++ w.relationship_buffer,
           relationship_buffer := [] }, false) := by
  unfold flush_relationships
  dsimp only
  rw [if_neg (by simp [hne]), if_pos hok]

theorem add_entity_triggers {α β : Type} (okB : List α → Bool)
    (okS : α → Bool) (w : BatchWriterState α β) (e : α)
    (h : w.batch_size ≤ w.entity_buffer.length + 1) :
    add_entity okB okS w e
      = flush_entities okB okS
          { w with entity_buffer := w.entity_buffer ++ [e] } := by
  unfold add_entity
  dsimp only
  rw [if_pos (by simp only [List.length_append, List.length_cons,
    List.length_nil]; omega)]

theorem add_relationship_triggers {α β : Type} (okB : List β → Bool)
    (okS : β → Bool) (w : BatchWriterState α β) (r : β)
    (h : w.batch_size ≤ w.relationship_buffer.length + 1) :
    add_relationship okB okS w r
      = flush_relationships okB okS
          { w with relationship_buffer := w.relationship_buffer ++ [r] } := by
  unfold add_relationship
  dsimp only
  rw [if_pos (by simp only [List.length_append, List.length_cons,
    List.length_nil]; omega)]

theorem add_entities_seq_cons_eq {α β : Type} (okB : List α → Bool)
    (okS : α → Bool) (w w₂ : BatchWriterState α β) (e : α) (es : List α)
    (h : add_entity okB okS w e = (w₂, false)) :
    add_entities_seq okB okS w (e :: es)
      = add_entities_seq okB okS w₂ es := by
  conv_lhs => unfold add_entities_seq
  rw [h]

theorem add_relationships_seq_cons_eq {α β : Type} (okB : List β → Bool)
    (okS : β → Bool) (w w₂ : BatchWriterState α β) (r : β) (rs : List β)
    (h : add_relationship okB okS w r = (w₂, false)) :
    add_relationships_seq okB okS w (r :: rs)
      = add_relationships_seq okB okS w₂ rs := by
  conv_lhs => unfold add_relationships_seq
  rw [h]

/-- C3: with batch size `B ≥ 1` and all writes succeeding, a sequence of
`B` `add_entity` (respectively `add_relationship`) calls on a fresh writer
triggers exactly one flush, persists all `B` items and leaves the buffer
empty, while `B - 1` such calls trigger no flush and leave all `B - 1`
items buffered. -/
theorem c3_batch_flush_trigger (α β : Type) (B : Nat) (hB : 1 ≤ B) :
    (∀ es : List α, es.length = B →
      add_entities_seq (fun _ => true) (fun _ => true) (initWriter α β B) es
        = (⟨B, [], [], es, [], 1, 0⟩, false)) ∧
    (∀ es : List α, es.length = B - 1 →
      add_entities_seq (fun _ => true) (fun _ => true) (initWriter α β B) es
        = (⟨B, es, [], [], [], 0, 0⟩, false)) ∧
    (∀ rs : List β, rs.length = B →
      add_relationships_seq (fun _ => true) (fun _ => true)
          (initWriter α β B) rs
        = (⟨B, [], [], [], rs, 0, 1⟩, false)) ∧
    (∀ rs : List β, rs.length = B - 1 →
      add_relationships_seq (fun _ => true) (fun _ => true)
          (initWriter α β B) rs
        = (⟨B, [], rs, [], [], 0, 0⟩, false)) := by
  refine ⟨?_, ?_, ?_, ?_⟩
  · intro es hlen
    have hne : es ≠ [] := by
      intro h0
      rw [h0] at hlen
      simp at hlen
      omega
    have hsplit := List.dropLast_append_getLast hne
    conv_lhs => rw [← hsplit]
    rw [add_entities_seq_no_flush _ _ _ _ (initWriter α β B)
      (by simp only [initWriter, List.length_nil, List.length_dropLast,
            hlen]; omega)]
    simp only [initWriter, List.nil_append]
    have hstep : add_entity (fun _ => true) (fun _ => true)
        (⟨B, es.dropLast, [], [], [], 0, 0⟩ : BatchWriterState α β)
        (es.getLast hne) = (⟨B, [], [], es, [], 1, 0⟩, false) := by
      rw [add_entity_triggers _ _ _ _
        (by simp only [List.length_dropLast, hlen]; omega)]
      rw [flush_entities_ok _ _ _ (by simp) rfl]
      simp [hsplit]
    rw [add_entities_seq_cons_eq _ _ _ _ _ _ hstep]
    simp only [add_entities_seq]
  · intro es hlen
    conv_lhs => rw [← List.append_nil es]
    rw [add_entities_seq_no_flush _ _ _ _ (initWriter α β B)
      (by simp only [initWriter, List.length_nil, hlen]; omega)]
    simp only [initWriter, List.nil_append, add_entities_seq]
  · intro rs hlen
    have hne : rs ≠ [] := by
      intro h0
      rw [h0] at hlen
      simp at hlen
      omega
    have hsplit := List.dropLast_append_getLast hne
    conv_lhs => rw [← hsplit]
    rw [add_relationships_seq_no_flush _ _ _ _ (initWriter α β B)
      (by simp only [initWriter, List.length_nil, List.length_dropLast,
            hlen]; omega)]
    simp only [initWriter, List.nil_append]
    have hstep : add_relationship (fun _ => true) (fun _ => true)
        (⟨B, [], rs.dropLast, [], [], 0, 0⟩ : BatchWriterState α β)
        (rs.getLast hne) = (⟨B, [], [], [], rs, 0, 1⟩, false) := by
      rw [add_relationship_triggers _ _ _ _
        (by simp only [List.length_dropLast, hlen]; omega)]
      rw [flush_relationships_ok _ _ _ (by simp) rfl]
      simp [hsplit]
    rw [add_relationships_seq_cons_eq _ _ _ _ _ _ hstep]
    simp only [add_relationships_seq]
  · intro rs hlen
    conv_lhs => rw [← List.append_nil rs]
    rw [add_relationships_seq_no_flush _ _ _ _ (initWriter α β B)
      (by simp only [initWriter, List.length_nil, hlen]; omega)]
    simp only [initWriter, List.nil_append, add_relationships_seq]

theorem c3_batch_flush_trigger_witness :
    1 ≤ 2 ∧
    add_entities_seq (fun _ => true) (fun _ => true)
        (initWriter Nat Nat 2) [10, 20]
      = (⟨2, [], [], [10, 20], [], 1, 0⟩, false) :=
  ⟨by omega,
   (c3_batch_flush_trigger Nat Nat 2 (by omega)).1 [10, 20] rfl⟩

theorem length_filter_not_add {α : Type} (p : α → Bool) (l : List α) :
    (l.filter p).length + (l.filter (fun a => !p a)).length = l.length := by
  induction l with
  | nil => rfl
  | cons a l ih =>
    cases hp : p a <;> simp [List.filter_cons, hp] <;> omega

/-- C2 counterexample: a failing bulk write over a 3-item buffer is
retried over `⌊3/2⌋ = 1`-sized slices, i.e. three sub-batches `[[1], [2],
[3]]` — not two halves. -/
theorem c2_counterexample :
    runWriteOk (fun _ => true) ([1, 2, 3] : List Nat) = false ∧
    (1 : Nat) < ([1, 2, 3] : List Nat).length ∧
    chunksOf (([1, 2, 3] : List Nat).length / 2) [1, 2, 3]
      = [[1], [2], [3]] ∧
    (chunksOf (([1, 2, 3] : List Nat).length / 2) [1, 2, 3]).length ≠ 2 := by
  decide

/-- C2 (amended): under the failure model where a write succeeds exactly
when it contains no malformed item, flushing a 4-item buffer holding
exactly one malformed item persists the 3 valid items in order and drops
only the malformed one; in general the retry persists exactly the valid
items of any failed buffer; the retry slices a failed buffer into
contiguous chunks of half its length — exactly two halves when the length
is even — and a still-failing single item goes through the per-item
fallback and is dropped after one attempt. -/
theorem c2_bisection_recovery {α β : Type} (bad : α → Bool)
    (w : BatchWriterState α β)
    (hlen : w.entity_buffer.length = 4)
    (hbad : (w.entity_buffer.filter bad).length = 1) :
    (flush_entities (runWriteOk bad) (fun i => !bad i) w
      = ({ w with
           entity_flush_count := w.entity_flush_count + 1,
           entity_store := w.entity_store ++
             w.entity_buffer.filter (fun i => !bad i),
           entity_buffer := [] }, false) ∧
     (w.entity_buffer.filter (fun i => !bad i)).length = 3) ∧
    (∀ items : List α,
      (retry_with_smaller_batches (runWriteOk bad) (fun i => !bad i)
        items).1 = items.filter (fun i => !bad i)) ∧
    (∀ (items : List α) (k : Nat), 1 ≤ k → items.length = 2 * k →
      chunksOf (items.length / 2) items = [items.take k, items.drop k]) ∧
    (∀ x : α, bad x = true →
      retry_with_smaller_batches (runWriteOk bad) (fun i => !bad i) [x]
        = ([], 1)) := by
  have hne : w.entity_buffer ≠ [] := by
    intro h0
    rw [h0] at hlen
    simp at hlen
  refine ⟨⟨?_, ?_⟩, ?_, ?_, ?_⟩
  · have hex : w.entity_buffer.any bad = true := by
      have hpos : 0 < (w.entity_buffer.filter bad).length := by omega
      obtain ⟨x, hx⟩ := List.exists_mem_of_ne_nil _
        (List.length_pos.mp hpos)
      have hx' := List.mem_filter.mp hx
      exact List.any_eq_true.mpr ⟨x, hx'.1, hx'.2⟩
    unfold flush_entities
    dsimp only
    rw [if_neg (by simp [hne])]
    rw [if_neg (by simp [runWriteOk, hex])]
    rw [if_pos (by omega)]
    rw [retry_persists_filter bad w.entity_buffer.length w.entity_buffer
      (le_refl _)]
  · have := length_filter_not_add bad w.entity_buffer
    omega
  · intro items
    exact retry_persists_filter bad items.length items (le_refl _)
  · intro items k hk hitems
    have hdiv : items.length / 2 = k := by omega
    rw [hdiv]
    have hne1 : items ≠ [] := by
      intro h0
      rw [h0] at hitems
      simp at hitems
      omega
    rw [chunksOf_cons_eq k hk items hne1]
    have hdroplen : (items.drop k).length = k := by
      rw [List.length_drop]
      omega
    have hdropne : items.drop k ≠ [] := by
      intro h0
      rw [h0] at hdroplen
      simp at hdroplen
      omega
    rw [chunksOf_cons_eq k hk (items.drop k) hdropne]
    rw [show (items.drop k).drop k = [] from by
      apply List.eq_nil_of_length_eq_zero
      rw [List.length_drop, hdroplen]
      omega]
    rw [show (items.drop k).take k = items.drop k from
      List.take_of_length_le (le_of_eq hdroplen)]
    rfl
  · intro x hx
    rw [retry_eq_zero _ _ [x] (by simp)]
    simp [hx]

theorem c2_bisection_recovery_witness :
    (([1, 2, 13, 4] : List Nat).length = 4 ∧
     (([1, 2, 13, 4] : List Nat).filter (fun n => n == 13)).length = 1) ∧
    flush_entities (runWriteOk (fun n => n == 13)) (fun n => !(n == 13))
        (⟨10, [1, 2, 13, 4], [], [], [], 0, 0⟩ : BatchWriterState Nat Nat)
      = (⟨10, [], [], [1, 2, 4], [], 1, 0⟩, false) :=
  ⟨⟨by decide, by decide⟩, by
    have h := (c2_bisection_recovery (β := Nat) (fun n => n == 13)
      ⟨10, [1, 2, 13, 4], [], [], [], 0, 0⟩ (by decide) (by decide)).1.1
    rw [h]
    decide⟩

/-- C9: for every buffer and every write-outcome behaviour of the store
(arbitrary success or failure per bulk slice and per single item), the
bisection retry performs at most `3 * n` write attempts on an `n`-item
buffer — the recursion reaches single-item batches after finitely many
splits and no retry path runs indefinitely. -/
theorem c9_retry_bounded_attempts {α : Type} (okBulk : List α → Bool)
    (okSingle : α → Bool) (items : List α) :
    (retry_with_smaller_batches okBulk okSingle items).2
      ≤ 3 * items.length := by
  rcases Nat.eq_zero_or_pos items.length with h0 | h1
  · rw [retry_eq_zero _ _ items (by omega)]
    dsimp only
    omega
  · have := retry_attempts_bound okBulk okSingle items.length items
      (le_refl _) h1
    omega

/-! ### 4. LLM response parsing -/

/-- A JSON value, as produced by `json.loads` (numbers read exactly as
rationals). -/
inductive JsonVal where
  | null
  | bool (b : Bool)
  | num (q : ℚ)
  | str (s : List Char)
  | arr (elems : List JsonVal)
  | obj (fields : List (List Char × JsonVal))

/-- JSON whitespace skipped by the decoder (space, tab, newline, carriage
return). -/
def jsonWs (c : Char) : Bool :=
  c = ' ' || c = '\t' || c = '\n' || c = '\r'

/-- Drop leading JSON whitespace. -/
def skipWs (s : List Char) : List Char := s.dropWhile jsonWs

/-- Numeric value of a decimal digit run. -/
def digitsToNat (ds : List Char) : Nat :=
  ds.foldl (fun n c => 10 * n + (c.toNat - 48)) 0

/-- Parse the JSON number at the head of the input (strict JSON grammar:
optional minus, integer part without leading zeros, optional fraction,
optional exponent), returning its exact rational value and the rest. -/
def parseNumber (s : List Char) : Option (ℚ × List Char) :=
  let (neg, s1) := match s with
    | '-' :: r => (true, r)
    | _ => (false, s)
  match s1 with
  | [] => none
  | c :: r =>
    if c = '0' ∨ ('1' ≤ c ∧ c ≤ '9') then
      let (intDs, s2) :=
        if c = '0' then ([c], r)
        else
          let (ds, r') := r.span Char.isDigit
          (c :: ds, r')
      let (fracDs, s3) := match s2 with
        | '.' :: r2 =>
          let (ds, r') := r2.span Char.isDigit
          if ds.isEmpty then ([], s2) else (ds, r')
        | _ => ([], s2)
      let (expVal, s4) : Int × List Char := match s3 with
        | e :: r2 =>
          if e = 'e' || e = 'E' then
            match r2 with
            | '-' :: r3 =>
              let (ds, r') := r3.span Char.isDigit
              if ds.isEmpty then (0, s3) else (-(digitsToNat ds : Int), r')
            | '+' :: r3 =>
              let (ds, r') := r3.span Char.isDigit
              if ds.isEmpty then (0, s3) else ((digitsToNat ds : Int), r')
            | _ =>
              let (ds, r') := r2.span Char.isDigit
              if ds.isEmpty then (0, s3) else ((digitsToNat ds : Int), r')
          else (0, s3)
        | [] => (0, s3)
      let mant : Int :=
        (if neg then -1 else 1) * (digitsToNat (intDs ++ fracDs) : Int)
      let e10 : Int := expVal - fracDs.length
      let q : ℚ :=
        if 0 ≤ e10 then mkRat (mant * (10 ^ e10.toNat : Nat)) 1
        else mkRat mant (10 ^ (-e10).toNat)
      some (q, s4)
    else none

/-- Value of a hexadecimal digit. -/
def hexVal (c : Char) : Option Nat :=
  if '0' ≤ c ∧ c ≤ '9' then some (c.toNat - 48)
  else if 'a' ≤ c ∧ c ≤ 'f' then some (c.toNat - 87)
  else if 'A' ≤ c ∧ c ≤ 'F' then some (c.toNat - 55)
  else none

/-- A simple JSON string escape (everything except `\u`). -/
def escChar (c : Char) : Option Char :=
  if c = '"' then some '"'
  else if c = '\\' then some '\\'
  else if c = '/' then some '/'
  else if c = 'b' then some '\x08'
  else if c = 'f' then some '\x0c'
  else if c = 'n' then some '\n'
  else if c = 'r' then some '\r'
  else if c = 't' then some '\t'
  else none

/-- Parse the body of a JSON string after the opening quote, handling
escapes; returns the content and the rest after the closing quote. -/
def parseStrAux : Nat → List Char → Option (List Char × List Char)
  | 0, _ => none
  | _ + 1, [] => none
  | _ + 1, '"' :: r => some ([], r)
  | f + 1, '\\' :: r =>
    match r with
    | 'u' :: h1 :: h2 :: h3 :: h4 :: r' => do
      let v1 ← hexVal h1
      let v2 ← hexVal h2
      let v3 ← hexVal h3
      let v4 ← hexVal h4
      let (cs, rest) ← parseStrAux f r'
      some (Char.ofNat (((v1 * 16 + v2) * 16 + v3) * 16 + v4) :: cs, rest)
    | e :: r' => do
      let ec ← escChar e
      let (cs, rest) ← parseStrAux f r'
      some (ec :: cs, rest)
    | [] => none
  | f + 1, c :: r => do
    let (cs, rest) ← parseStrAux f r
    some (c :: cs, rest)

mutual

/-- Parse the JSON value at the head of the input (whitespace already
skipped). -/
def parseValue : Nat → List Char → Option (JsonVal × List Char)
  | 0, _ => none
  | f + 1, s =>
    match s with
    | [] => none
    | 'n' :: 'u' :: 'l' :: 'l' :: r => some (JsonVal.null, r)
    | 't' :: 'r' :: 'u' :: 'e' :: r => some (JsonVal.bool true, r)
    | 'f' :: 'a' :: 'l' :: 's' :: 'e' :: r => some (JsonVal.bool false, r)
    | '"' :: r => do
      let (cs, rest) ← parseStrAux (r.length + 1) r
      some (JsonVal.str cs, rest)
    | '[' :: r =>
      (match skipWs r with
        | ']' :: r2 => some (JsonVal.arr [], r2)
        | r1 => do
          let (xs, rest) ← parseElems f r1
          some (JsonVal.arr xs, rest))
    | '{' :: r =>
      (match skipWs r with
        | '}' :: r2 => some (JsonVal.obj [], r2)
        | r1 => do
          let (kvs, rest) ← parseFields f r1
          some (JsonVal.obj kvs, rest))
    | c :: _ =>
      if c = '-' || c.isDigit then do
        let (q, rest) ← parseNumber s
        some (JsonVal.num q, rest)
      else none

/-- Parse the elements of a JSON array (at the first element), through the
closing bracket. -/
def parseElems : Nat → List Char → Option (List JsonVal × List Char)
  | 0, _ => none
  | f + 1, s => do
    let (v, rest) ← parseValue f s
    match skipWs rest with
    | ',' :: r2 => do
      let (vs, rest2) ← parseElems f (skipWs r2)
      some (v :: vs, rest2)
    | ']' :: r2 => some ([v], r2)
    | _ => none

/-- Parse the fields of a JSON object (at the first key), through the
closing brace. -/
def parseFields : Nat →
    List Char → Option (List (List Char × JsonVal) × List Char)
  | 0, _ => none
  | f + 1, s =>
    match s with
    | '"' :: r => do
      let (k, rest) ← parseStrAux (r.length + 1) r
      match skipWs rest with
      | ':' :: r2 => do
        let (v, rest2) ← parseValue f (skipWs r2)
        match skipWs rest2 with
        | ',' :: r3 => do
          let (kvs, rest3) ← parseFields f (skipWs r3)
          some ((k, v) :: kvs, rest3)
        | '}' :: r3 => some ([(k, v)], r3)
        | _ => none
      | _ => none
    | _ => none

end

/-- `json.loads`: parse a complete JSON document — leading and trailing
whitespace allowed, anything else after the value is an error. -/
def jsonLoads (s : List Char) : Option JsonVal :=
  match parseValue (s.length + 1) (skipWs s) with
  | some (v, rest) => if (skipWs rest).isEmpty then some v else none
  | none => none

/-- Python regex `\s` whitespace. -/
def reWs (c : Char) : Bool :=
  c = ' ' || c = '\t' || c = '\n' || c = '\r' || c = '\x0c' || c = '\x0b'

/-- Strip a literal "```" prefix, if present. -/
def dropFence : List Char → Option (List Char)
  | '`' :: '`' :: '`' :: r => some r
  | _ => none

/-- Scan (the lazy `.*?` of the fenced pattern) for the first `]` that is
followed by optional whitespace and a closing "```"; `acc` holds the
reversed group content scanned so far. -/
def fencedClose : List Char → List Char → Option (List Char)
  | _, [] => none
  | acc, c :: rest =>
    if c = ']' && (dropFence (rest.dropWhile reWs)).isSome then
      some (acc.reverse ++ [']'])
    else fencedClose (c :: acc) rest

/-- The part of a fenced-block match after "```" and the optional "json"
tag: skip whitespace, expect `[`, then lazily close. -/
def fencedAttemptBody (t : List Char) : Option (List Char) :=
  match t.dropWhile reWs with
  | '[' :: r => fencedClose ['['] r
  | _ => none

/-- A fenced-block match attempt just after "```": the greedy optional
"json" tag is tried first, falling back to not consuming it. -/
def fencedAttempt (afterTicks : List Char) : Option (List Char) :=
  match afterTicks with
  | 'j' :: 's' :: 'o' :: 'n' :: r =>
    (match fencedAttemptBody r with
      | some g => some g
      | none => fencedAttemptBody afterTicks)
  | _ => fencedAttemptBody afterTicks

/-- A match attempt of the fenced pattern anchored at the head of `s`. -/
def fenceHeadAttempt (s : List Char) : Option (List Char) :=
  match s with
  | '`' :: '`' :: '`' :: after => fencedAttempt after
  | _ => none

/-- Leftmost match of the fenced-code-block pattern
(re.search of a "```", optional "json", whitespace, a lazily matched
bracketed group, whitespace, "```"): try a match attempt at each position
from the left. -/
def fencedSearch : List Char → Option (List Char)
  | [] => none
  | c :: rest =>
    match fenceHeadAttempt (c :: rest) with
    | some g => some g
    | none => fencedSearch rest

/-- Scan for the first `]` (the lazy close of the bare bracket pattern). -/
def bracketClose : List Char → List Char → Option (List Char)
  | _, [] => none
  | acc, c :: rest =>
    if c = ']' then some (acc.reverse ++ [']'])
    else bracketClose (c :: acc) rest

/-- Leftmost match of the bare bracket pattern (re.search of a `[`
followed lazily by the first `]`). -/
def bracketSearch : List Char → Option (List Char)
  | [] => none
  | c :: rest =>
    match (if c = '[' then bracketClose [c] rest else none) with
    | some g => some g
    | none => bracketSearch rest

/-- Whether the text contains a `[` with a later `]` — exactly when one of
the two searches can find a bracketed group. -/
def hasBracketPair : List Char → Bool
  | [] => false
  | c :: rest => (c = '[' && rest.contains ']') || hasBracketPair rest

/-- The JSON-array extraction of `_parse_llm_response`: the fenced pattern
first, then the bare bracket pattern. -/
def extract_json_str (s : List Char) : Option (List Char) :=
  match fencedSearch s with
  | some g => some g
  | none => bracketSearch s

/-- An `ExtractedEntity` as built by the entity response parser. -/
structure ParsedEntity where
  entity_name : List Char
  entity_type : List Char
  confidence_score : ℚ
  source_document_id : Nat
  text_span : Option (List Char)
deriving DecidableEq, Repr

/-- Python truthiness of a JSON value (`not entity_data["text_span"]`). -/
def pyFalsy : JsonVal → Bool
  | JsonVal.null => true
  | JsonVal.bool b => !b
  | JsonVal.num q => q == 0
  | JsonVal.str s => s.isEmpty
  | JsonVal.arr xs => xs.isEmpty
  | JsonVal.obj kvs => kvs.isEmpty

/-- Dictionary lookup on a decoded JSON object. -/
def jsonGet (kvs : List (List Char × JsonVal)) (k : List Char) :
    Option JsonVal :=
  (kvs.find? (fun kv => kv.1 == k)).map (fun kv => kv.2)

/-- First index at which `needle` occurs in `haystack` (`str.find`,
already lowercased by the caller). -/
def indexOfSub : List Char → List Char → Option Nat
  | haystack, needle =>
    if needle.isPrefixOf haystack then some 0
    else match haystack with
      | [] => none
      | _ :: rest =>
        match indexOfSub rest needle with
        | some i => some (i + 1)
        | none => none

/-- `EntityExtractor._find_text_span`: case-insensitive substring search,
returning "char {start}-{end}" or the sentinel "not found". -/
def find_text_span (entity_name docText : List Char) : List Char :=
  match indexOfSub (docText.map Char.toLower) (entity_name.map Char.toLower)
  with
  | some i =>
    "char ".toList ++ (Nat.repr i).data ++ "-".toList
      ++ (Nat.repr (i + entity_name.length)).data
  | none => "not found".toList

/-- One iteration of the entity parse loop: map the alternate `confidence`
key, compute `text_span` when missing or falsy (which reads
`entity_name`, so a missing or non-string name drops the record), attach
the document id, and validate the `ExtractedEntity` contract (string
name and type, confidence in [0, 1], optional string span); any failure
drops this record only. -/
def tryParseEntity (docText : List Char) (docId : Nat) (j : JsonVal) :
    Option ParsedEntity :=
  match j with
  | JsonVal.obj kvs => do
    let confV ← (match jsonGet kvs "confidence_score".toList with
      | some v => some v
      | none => jsonGet kvs "confidence".toList)
    let span ← (match jsonGet kvs "text_span".toList with
      | some v =>
        if pyFalsy v then
          match jsonGet kvs "entity_name".toList with
          | some (JsonVal.str nm) => some (find_text_span nm docText)
          | _ => none
        else
          match v with
          | JsonVal.str sv => some sv
          | _ => none
      | none =>
        match jsonGet kvs "entity_name".toList with
        | some (JsonVal.str nm) => some (find_text_span nm docText)
        | _ => none)
    match jsonGet kvs "entity_name".toList,
        jsonGet kvs "entity_type".toList, confV with
    | some (JsonVal.str nm), some (JsonVal.str ty), JsonVal.num q =>
      if 0 ≤ q ∧ q ≤ 1 then some ⟨nm, ty, q, docId, some span⟩ else none
    | _, _, _ => none
  | _ => none

/-- The per-record loop of the entity parser: records failing validation
are dropped with a warning, the rest are kept in order. -/
def parseEntityObjects (docText : List Char) (docId : Nat)
    (xs : List JsonVal) : List ParsedEntity :=
  xs.filterMap (tryParseEntity docText docId)

/-- `EntityExtractor._parse_llm_response`: extract a JSON array (fenced
block first, then bare brackets; none found means zero entities), decode
it (a found group that is not valid JSON raises ValueError), and run the
per-record validation loop. The non-array branch after a successful
decode is unreachable: the extracted group always starts with `[`. -/
def parse_llm_response (docText : List Char) (docId : Nat)
    (llmResponse : List Char) : Except (List Char) (List ParsedEntity) :=
  match extract_json_str llmResponse with
  | none => Except.ok []
  | some js =>
    match jsonLoads js with
    | none => Except.error "LLM response is not valid JSON".toList
    | some (JsonVal.arr xs) =>
      Except.ok (parseEntityObjects docText docId xs)
    | some _ => Except.ok []

/-- Python `str.isupper`: at least one cased character and no lowercase
one (ASCII). -/
def pyIsUpper (s : List Char) : Bool :=
  s.any (fun c => c.isLower || c.isUpper) && !(s.any (fun c => c.isLower))

/-- Python `str.upper` (ASCII). -/
def pyUpper (s : List Char) : List Char := s.map Char.toUpper

/-- The closed relationship-type vocabulary of
`ExtractedRelationship.validate_relationship_type`. -/
def valid_relationship_types : List (List Char) :=
  ["MENTIONS".toList, "RELATED_TO".toList, "PART_OF".toList,
   "IMPLEMENTS".toList, "DEPENDS_ON".toList, "LOCATED_IN".toList,
   "AUTHORED_BY".toList]

/-- `validate_relationship_type`: uppercase the value unless it already is
uppercase, then require membership in the closed vocabulary. -/
def validate_relationship_type (v : List Char) : Option (List Char) :=
  let v' := if pyIsUpper v then v else pyUpper v
  if valid_relationship_types.contains v' then some v' else none

/-- An `ExtractedRelationship` as built by the relationship parser. -/
structure ParsedRelationship where
  source_entity_name : List Char
  target_entity_name : List Char
  relationship_type : List Char
  confidence_score : ℚ
  source_document_id : Nat
deriving DecidableEq, Repr

/-- One iteration of the relationship parse loop: map the alternate
`confidence` key, attach the document id, and validate the
`ExtractedRelationship` contract (string fields, confidence in [0, 1],
relationship type in the closed vocabulary after case normalization); any
failure drops this record only. -/
def tryParseRelationship (docId : Nat) (j : JsonVal) :
    Option ParsedRelationship :=
  match j with
  | JsonVal.obj kvs => do
    let confV ← (match jsonGet kvs "confidence_score".toList with
      | some v => some v
      | none => jsonGet kvs "confidence".toList)
    match jsonGet kvs "source_entity_name".toList,
        jsonGet kvs "target_entity_name".toList,
        jsonGet kvs "relationship_type".toList, confV with
    | some (JsonVal.str sn), some (JsonVal.str tn), some (JsonVal.str rt),
        JsonVal.num q =>
      if 0 ≤ q ∧ q ≤ 1 then
        match validate_relationship_type rt with
        | some rt' => some ⟨sn, tn, rt', q, docId⟩
        | none => none
      else none
    | _, _, _, _ => none
  | _ => none

/-- The per-record loop of the relationship parser: records failing
validation are dropped with a warning, the rest are kept in order. -/
def parseRelationshipObjects (docId : Nat) (xs : List JsonVal) :
    List ParsedRelationship :=
  xs.filterMap (tryParseRelationship docId)

/-! Lemmas: when the text has no `[` later followed by `]`, neither search
finds a group, so the parser returns an empty list. -/

theorem bracketClose_none (rest : List Char)
    (h : rest.contains ']' = false) :
    ∀ acc, bracketClose acc rest = none := by
  induction rest with
  | nil => intro acc; rfl
  | cons c r ih =>
    intro acc
    rw [List.contains_cons, Bool.or_eq_false_iff] at h
    unfold bracketClose
    rw [if_neg (by
      intro hc
      subst hc
      simp at h)]
    exact ih h.2 (c :: acc)

theorem fencedClose_none (rest : List Char)
    (h : rest.contains ']' = false) :
    ∀ acc, fencedClose acc rest = none := by
  induction rest with
  | nil => intro acc; rfl
  | cons c r ih =>
    intro acc
    rw [List.contains_cons, Bool.or_eq_false_iff] at h
    unfold fencedClose
    rw [if_neg (by
      simp only [Bool.and_eq_true, not_and]
      intro hc
      rw [decide_eq_true_eq] at hc
      subst hc
      simp at h)]
    exact ih h.2 (c :: acc)

theorem hasBracketPair_tail (c : Char) (rest : List Char)
    (h : hasBracketPair (c :: rest) = false) :
    hasBracketPair rest = false := by
  unfold hasBracketPair at h
  rw [Bool.or_eq_false_iff] at h
  exact h.2

theorem noPair_split : ∀ s : List Char, hasBracketPair s = false →
    ∀ u v, s = u ++ '[' :: v → v.contains ']' = false := by
  intro s
  induction s with
  | nil =>
    intro h u v he
    exact absurd he (by cases u <;> simp)
  | cons c rest ih =>
    intro h u v he
    cases u with
    | nil =>
      rw [List.nil_append] at he
      obtain ⟨hc, hv⟩ := List.cons.inj he
      subst hc
      subst hv
      unfold hasBracketPair at h
      rw [Bool.or_eq_false_iff, Bool.and_eq_false_iff] at h
      rcases h.1 with h1 | h1
      · simp at h1
      · exact h1
    | cons d u' =>
      rw [List.cons_append] at he
      exact ih (hasBracketPair_tail c rest h) u' v (List.cons.inj he).2

theorem noPair_suffix (s : List Char) (h : hasBracketPair s = false)
    (v : List Char) (hs : ('[' :: v) <:+ s) : v.contains ']' = false := by
  obtain ⟨u, hu⟩ := hs
  exact noPair_split s h u v hu.symm

theorem fencedAttemptBody_none (s t : List Char)
    (h : hasBracketPair s = false) (hsuf : t <:+ s) :
    fencedAttemptBody t = none := by
  unfold fencedAttemptBody
  split
  · next r heq =>
    have hsuf2 : ('[' :: r) <:+ s := by
      rw [← heq]
      exact (List.dropWhile_suffix reWs).trans hsuf
    exact fencedClose_none r (noPair_suffix s h r hsuf2) ['[']
  · rfl

theorem fencedAttempt_none (s a : List Char)
    (h : hasBracketPair s = false) (hsuf : a <:+ s) :
    fencedAttempt a = none := by
  unfold fencedAttempt
  split
  · next r =>
    have hr : r <:+ s :=
      ((List.suffix_cons 'n' r).trans ((List.suffix_cons 'o' _).trans
        ((List.suffix_cons 's' _).trans
          ((List.suffix_cons 'j' _).trans hsuf))))
    rw [fencedAttemptBody_none s r h hr]
    exact fencedAttemptBody_none s _ h hsuf
  · exact fencedAttemptBody_none s a h hsuf

theorem fenceHeadAttempt_none (s t : List Char)
    (h : hasBracketPair s = false) (hsuf : t <:+ s) :
    fenceHeadAttempt t = none := by
  unfold fenceHeadAttempt
  split
  · next after =>
    apply fencedAttempt_none s after h
    exact ((List.suffix_cons '`' after).trans
      ((List.suffix_cons '`' _).trans
        ((List.suffix_cons '`' _).trans hsuf)))
  · rfl

theorem fencedSearch_none : ∀ s : List Char, hasBracketPair s = false →
    fencedSearch s = none := by
  intro s
  induction s with
  | nil => intro h; rfl
  | cons c rest ih =>
    intro h
    unfold fencedSearch
    rw [fenceHeadAttempt_none (c :: rest) (c :: rest) h
      (List.suffix_refl _)]
    exact ih (hasBracketPair_tail c rest h)

theorem bracketSearch_none : ∀ s : List Char, hasBracketPair s = false →
    bracketSearch s = none := by
  intro s
  induction s with
  | nil => intro h; rfl
  | cons c rest ih =>
    intro h
    unfold bracketSearch
    by_cases hc : c = '['
    · subst hc
      have hcont : rest.contains ']' = false := by
        unfold hasBracketPair at h
        rw [Bool.or_eq_false_iff, Bool.and_eq_false_iff] at h
        rcases h.1 with h1 | h1
        · simp at h1
        · exact h1
      rw [if_pos rfl, bracketClose_none rest hcont ['[']]
      exact ih (hasBracketPair_tail '[' rest h)
    · rw [if_neg hc]
      exact ih (hasBracketPair_tail c rest h)

theorem extract_json_str_none (s : List Char)
    (h : hasBracketPair s = false) : extract_json_str s = none := by
  unfold extract_json_str
  rw [fencedSearch_none s h]
  exact bracketSearch_none s h

theorem parse_llm_response_no_array (docText : List Char) (docId : Nat)
    (s : List Char) (h : hasBracketPair s = false) :
    parse_llm_response docText docId s = Except.ok [] := by
  unfold parse_llm_response
  rw [extract_json_str_none s h]

/-- A representative entity array, as text. -/
def c5Array : String :=
  "[\x7b\"entity_name\": \"Alice\", \"entity_type\": \"person\", \"confidence\": 0.9\x7d]"

/-- The same array wrapped in a ```json fenced code block. -/
def c5Fenced : String := "```json\n" ++ c5Array ++ "\n```"

/-- C5 counterexample: the response "I found [nothing]." contains no
parseable JSON substring at all (every contiguous substring fails
`json.loads`), yet the parser raises a ValueError instead of returning an
empty list: the bare-bracket search finds "[nothing]" and its decode
fails. -/
theorem c5_counterexample :
    ((List.range 19).all (fun i => (List.range 19).all (fun k =>
      (jsonLoads (("I found [nothing].".toList.drop i).take k)).isNone)))
      = true ∧
    extract_json_str "I found [nothing].".toList
      = some "[nothing]".toList ∧
    parse_llm_response [] 0 "I found [nothing].".toList
      = Except.error "LLM response is not valid JSON".toList :=
  ⟨by decide, by decide, by rfl⟩

/-- C5 (amended): a response with no `[` later followed by `]` (so neither
regex finds an array — e.g. "I found nothing.") yields an empty entity
list without an exception; a found bracketed group that fails JSON
decoding raises a ValueError instead; and a response whose JSON array is
wrapped in ```json fences parses to exactly the same entity list as the
same array unwrapped. -/
theorem c5_model_output_tolerance (docText : List Char) (docId : Nat) :
    (∀ s : List Char, hasBracketPair s = false →
      parse_llm_response docText docId s = Except.ok []) ∧
    parse_llm_response docText docId "I found nothing.".toList
      = Except.ok [] ∧
    (∀ s js : List Char, extract_json_str s = some js →
      jsonLoads js = none →
      parse_llm_response docText docId s
        = Except.error "LLM response is not valid JSON".toList) ∧
    parse_llm_response docText docId c5Fenced.toList
      = parse_llm_response docText docId c5Array.toList := by
  have h1 : ∀ s : List Char, hasBracketPair s = false →
      parse_llm_response docText docId s = Except.ok [] := fun s h =>
    parse_llm_response_no_array docText docId s h
  refine ⟨h1, h1 _ (by decide), ?_, ?_⟩
  · intro s js hex hload
    unfold parse_llm_response
    rw [hex]
    dsimp only
    rw [hload]
  · have he1 : extract_json_str c5Fenced.toList = some c5Array.toList := by
      decide
    have he2 : extract_json_str c5Array.toList = some c5Array.toList := by
      decide
    unfold parse_llm_response
    rw [he1, he2]

theorem c5_model_output_tolerance_witness :
    hasBracketPair "No JSON here!".toList = false ∧
    parse_llm_response [] 3 "No JSON here!".toList = Except.ok [] :=
  ⟨by decide, (c5_model_output_tolerance [] 3).1 _ (by decide)⟩

/-! C7: relationship-type normalization and per-record dropping. -/

theorem toUpper_of_not_lower (c : Char) (h : c.isLower = false) :
    c.toUpper = c := by
  unfold Char.toUpper
  rw [if_neg]
  intro hcon
  rcases hcon with ⟨h1, h2⟩
  unfold Char.isLower at h
  simp only [Bool.and_eq_false_iff, decide_eq_false_iff_not] at h
  unfold Char.toNat at h1 h2
  rcases h with h | h
  · apply h
    rw [ge_iff_le, UInt32.le_def, BitVec.le_def]
    exact h1
  · apply h
    rw [UInt32.le_def, BitVec.le_def]
    exact h2

theorem pyUpper_of_isUpper (v : List Char) (h : pyIsUpper v = true) :
    pyUpper v = v := by
  unfold pyIsUpper at h
  rw [Bool.and_eq_true] at h
  have hnl : ∀ c ∈ v, c.isLower = false := by
    intro c hc
    have := h.2
    rw [Bool.not_eq_true', List.any_eq_false] at this
    exact Bool.not_eq_true _ ▸ (by
      have := this c hc
      simpa using this)
  unfold pyUpper
  calc v.map Char.toUpper = v.map id := by
        apply List.map_congr_left
        intro c hc
        exact toUpper_of_not_lower c (hnl c hc)
    _ = v := List.map_id v

/-- C7: a relationship_type is normalized to uppercase and accepted
exactly when the uppercased value lies in the closed vocabulary
("mentions" is stored as "MENTIONS"); a record whose type falls outside
the vocabulary fails validation and is dropped alone, leaving the other
relationships of the same response in the result list. -/
theorem c7_relationship_type_vocabulary (docId : Nat) :
    validate_relationship_type "mentions".toList
      = some "MENTIONS".toList ∧
    (∀ v : List Char, validate_relationship_type v
      = if valid_relationship_types.contains (pyUpper v)
        then some (pyUpper v) else none) ∧
    (∀ (l1 l2 : List JsonVal) (badObj : JsonVal),
      tryParseRelationship docId badObj = none →
      parseRelationshipObjects docId (l1 ++ badObj :: l2)
        = parseRelationshipObjects docId l1
          ++ parseRelationshipObjects docId l2) := by
  refine ⟨by decide, ?_, ?_⟩
  · intro v
    unfold validate_relationship_type
    by_cases hu : pyIsUpper v = true
    · rw [if_pos hu]
      dsimp only
      rw [pyUpper_of_isUpper v hu]
    · rw [if_neg hu]
  · intro l1 l2 badObj hbad
    unfold parseRelationshipObjects
    rw [List.filterMap_append]
    congr 1
    rw [List.filterMap_cons, hbad]

/-- A well-formed relationship record with a lowercase type. -/
def c7GoodObj : JsonVal :=
  JsonVal.obj
    [("source_entity_name".toList, JsonVal.str "Alice".toList),
     ("target_entity_name".toList, JsonVal.str "Acme".toList),
     ("relationship_type".toList, JsonVal.str "mentions".toList),
     ("confidence".toList, JsonVal.num (mkRat 9 10))]

/-- A relationship record whose type is outside the vocabulary. -/
def c7BadObj : JsonVal :=
  JsonVal.obj
    [("source_entity_name".toList, JsonVal.str "Alice".toList),
     ("target_entity_name".toList, JsonVal.str "Acme".toList),
     ("relationship_type".toList, JsonVal.str "KNOWS".toList),
     ("confidence_score".toList, JsonVal.num (mkRat 4 5))]

theorem c7_relationship_type_vocabulary_witness :
    tryParseRelationship 7 c7BadObj = none ∧
    parseRelationshipObjects 7 [c7GoodObj]
      = [⟨"Alice".toList, "Acme".toList, "MENTIONS".toList, mkRat 9 10, 7⟩] ∧
    parseRelationshipObjects 7 ([c7GoodObj] ++ c7BadObj :: [c7GoodObj])
      = parseRelationshipObjects 7 [c7GoodObj]
        ++ parseRelationshipObjects 7 [c7GoodObj] :=
  ⟨by decide, by decide,
   (c7_relationship_type_vocabulary 7).2.2 [c7GoodObj] [c7GoodObj] c7BadObj
     (by decide)⟩

/-! ### 5. Processing worker (services/api/app/workers/lightrag_worker.py) -/

/-- A queued document: id and the "text" field of its parsed content. -/
structure DocItem where
  doc_id : String
  text : String
deriving DecidableEq, Repr

/-- `asyncio.Queue.task_done`: raises ValueError when called more times
than there were unfinished items; otherwise decrements the counter. -/
def task_done (unfinished : Nat) : Except String Nat :=
  if unfinished = 0 then Except.error "task_done() called too many times"
  else Except.ok (unfinished - 1)

/-- Observable effects of the worker loop: the `queue.processing` status
updates, the Neo4j document-status updates, and the extractor
invocations, each in order. -/
structure WorkerLog where
  processing_updates : List (String × String)
  db_updates : List (String × String)
  extractor_calls : List String
deriving DecidableEq, Repr

/-- The `process_documents` loop body, run over a finite queue: for each
dequeued item, mark it processing; an empty-text item is marked indexed
without calling the extractor, `task_done` is called explicitly and the
`continue` then runs the `finally` block's second `task_done` — whose
ValueError is not caught and escapes the loop; a ValueError from the
explicit call would be caught by the `except` clause (marking the
document failed) before the `finally` runs; a non-empty item goes through
the extractor and is marked indexed or failed, with the single `finally`
`task_done`. -/
def process_loop (extract_ok : DocItem → Bool) :
    List DocItem → Nat → WorkerLog →
    Except (String × WorkerLog) (Nat × WorkerLog)
  | [], unf, log => Except.ok (unf, log)
  | item :: rest, unf, log =>
    let log := { log with processing_updates :=
      log.processing_updates ++ [(item.doc_id, "processing")] }
    if item.text = "" then
      let log := { log with
        processing_updates :=
          log.processing_updates ++ [(item.doc_id, "indexed")],
        db_updates := log.db_updates ++ [(item.doc_id, "indexed")] }
      match task_done unf with
      | Except.ok unf1 =>
        match task_done unf1 with
        | Except.ok unf2 => process_loop extract_ok rest unf2 log
        | Except.error e => Except.error (e, log)
      | Except.error _ =>
        let log := { log with
          processing_updates :=
            log.processing_updates ++ [(item.doc_id, "failed")],
          db_updates := log.db_updates ++ [(item.doc_id, "failed")] }
        match task_done unf with
        | Except.ok unf1 => process_loop extract_ok rest unf1 log
        | Except.error e => Except.error (e, log)
    else
      let log := { log with extractor_calls :=
        log.extractor_calls ++ [item.doc_id] }
      let status := if extract_ok item then "indexed" else "failed"
      let log := { log with
        processing_updates :=
          log.processing_updates ++ [(item.doc_id, status)],
        db_updates := log.db_updates ++ [(item.doc_id, status)] }
      match task_done unf with
      | Except.ok unf1 => process_loop extract_ok rest unf1 log
      | Except.error e => Except.error (e, log)

/-- C8 (code evaluation at the failing input): with one queued document of
empty parsed text (unfinished count 1), the worker marks it indexed and
never invokes the extractor, but the empty-content branch calls
`task_done` twice — explicitly before `continue` and again in `finally` —
so the second call raises ValueError and the loop dies instead of
proceeding cleanly; with a second, non-empty document queued the worker
still crashes right after processing it, the counter having been
over-decremented. -/
theorem c8_empty_content_task_done_bug :
    process_loop (fun _ => true) [⟨"doc1", ""⟩] 1 ⟨[], [], []⟩
      = Except.error ("task_done() called too many times",
          ⟨[("doc1", "processing"), ("doc1", "indexed")],
           [("doc1", "indexed")], []⟩) ∧
    process_loop (fun _ => true) [⟨"doc1", ""⟩, ⟨"doc2", "text"⟩] 2
        ⟨[], [], []⟩
      = Except.error ("task_done() called too many times",
          ⟨[("doc1", "processing"), ("doc1", "indexed"),
            ("doc2", "processing"), ("doc2", "indexed")],
           [("doc1", "indexed"), ("doc2", "indexed")], ["doc2"]⟩) :=
  ⟨by rfl, by rfl⟩

/-! ### 6. Entity-type configuration cache (app/utils/entity_config.py) -/

/-- An `EntityType` entry from entity-types.yaml. -/
structure EntityTypeDef where
  type_name : String
  description : String
  examples : List String
deriving DecidableEq, Repr

/-- Python `str.islower`: at least one cased character and no uppercase
one (ASCII). -/
def pyIsLower (s : List Char) : Bool :=
  s.any (fun c => c.isLower || c.isUpper) && !(s.any (fun c => c.isUpper))

/-- `EntityType.validate_type_name`: lowercase with no spaces. -/
def validate_type_name (v : String) : Option String :=
  if !pyIsLower v.toList then none
  else if v.toList.contains ' ' then none
  else some v

/-- Validate every entry (`EntityType(**et)` in a comprehension — the
first invalid entry raises). -/
def validateEntityTypes :
    List EntityTypeDef → Except String (List EntityTypeDef)
  | [] => Except.ok []
  | et :: rest =>
    match validate_type_name et.type_name with
    | none => Except.error "type_name must be lowercase with no spaces"
    | some _ =>
      match validateEntityTypes rest with
      | Except.ok ets => Except.ok (et :: ets)
      | Except.error e => Except.error e

/-- What the file system yields at a path: `none` — file missing
(FileNotFoundError); `some none` — YAML empty or without an
`entity_types` key (ValueError); `some (some raws)` — the raw
`entity_types` entries. -/
def EntityTypesFS : Type := String → Option (Option (List EntityTypeDef))

/-- The outcome of one `load_entity_types` call: returned value or raised
error, the module cache afterwards, and whether the file system was
touched. -/
structure LoadOutcome where
  result : Except String (List EntityTypeDef)
  cache : Option (List EntityTypeDef)
  file_accessed : Bool
deriving Repr

/-- `load_entity_types`: return the cached list when the cache is set (no
file access; the path argument is ignored); otherwise check existence,
read, validate, and fill the cache on success. -/
def load_entity_types (fs : EntityTypesFS)
    (cache : Option (List EntityTypeDef)) (path : String) : LoadOutcome :=
  match cache with
  | some ets => ⟨Except.ok ets, some ets, false⟩
  | none =>
    match fs path with
    | none => ⟨Except.error "Entity types config not found", none, true⟩
    | some none =>
      ⟨Except.error "Invalid entity-types.yaml: missing entity_types key",
        none, true⟩
    | some (some raws) =>
      match validateEntityTypes raws with
      | Except.ok ets => ⟨Except.ok ets, some ets, true⟩
      | Except.error e => ⟨Except.error e, none, true⟩

/-- `clear_entity_types_cache`: reset the module-level cache. -/
def clear_entity_types_cache (_cache : Option (List EntityTypeDef)) :
    Option (List EntityTypeDef) := none

/-- C10: after a first successful `load_entity_types` call, every
subsequent call returns the identical cached list with no file access,
even when given a different path (silently ignored); and after an
explicit `clear_entity_types_cache`, the next call touches the file
system again. -/
theorem c10_entity_types_cache (fs : EntityTypesFS) (path₁ : String)
    (ets : List EntityTypeDef)
    (h : (load_entity_types fs none path₁).result = Except.ok ets) :
    (∀ path₂ : String,
      load_entity_types fs (load_entity_types fs none path₁).cache path₂
        = ⟨Except.ok ets, some ets, false⟩) ∧
    (∀ (c : Option (List EntityTypeDef)) (path₂ : String),
      (load_entity_types fs (clear_entity_types_cache c)
        path₂).file_accessed = true) := by
  have hc : (load_entity_types fs none path₁).cache = some ets := by
    unfold load_entity_types at h ⊢
    dsimp only at h ⊢
    generalize hfo : fs path₁ = fo at h ⊢
    cases fo with
    | none => simp at h
    | some o =>
      cases o with
      | none => simp at h
      | some raws =>
        dsimp only at h ⊢
        generalize hvo : validateEntityTypes raws = vo at h ⊢
        cases vo with
        | ok e2 =>
          dsimp only at h ⊢
          rw [Except.ok.inj h]
        | error e => simp at h
  constructor
  · intro path₂
    rw [hc]
    rfl
  · intro c path₂
    unfold clear_entity_types_cache load_entity_types
    dsimp only
    generalize fs path₂ = fo
    cases fo with
    | none => rfl
    | some o =>
      cases o with
      | none => rfl
      | some raws =>
        dsimp only
        generalize validateEntityTypes raws = vo
        cases vo <;> rfl

/-- A file system with one valid configuration. -/
def c10fs : EntityTypesFS :=
  fun _ => some (some [⟨"person", "humans", ["Alice"]⟩])

theorem c10_entity_types_cache_witness :
    (load_entity_types c10fs none "cfg.yaml").result
      = Except.ok [⟨"person", "humans", ["Alice"]⟩] ∧
    load_entity_types c10fs
        (load_entity_types c10fs none "cfg.yaml").cache "other.yaml"
      = ⟨Except.ok [⟨"person", "humans", ["Alice"]⟩],
         some [⟨"person", "humans", ["Alice"]⟩], false⟩ :=
  ⟨by rfl,
   (c10_entity_types_cache c10fs "cfg.yaml" [⟨"person", "humans", ["Alice"]⟩]
     (by rfl)).1 "other.yaml"⟩
